import Mathlib

/-!
# Hotel management: flat-file backend (`hotel.cpp`) and transactional backend (`dbms.cpp`)

Shallow embedding of the inventory / order core of both programs.

Conventions of the embedding

* A C++ `int` is a Lean `Int` between `INT_MIN` and `INT_MAX`.  Every `int` sum,
  difference and product the source computes on quantities, sold counts and prices is
  followed by `wrapInt`, the 32-bit two's-complement value the compiled program holds when
  the exact result does not fit.
  Where the source itself checks the `int` range (`std::stoi`), the check is modelled.
* A `std::string` used as file content is a `List Char`; item names are `String`.
* Files are explicit state: `none` is an absent file, `some cs` a file holding `cs`.
  Opening a file for writing may fail; the outcome is an explicit Boolean argument.
* Console output is abstracted to the numbers it shows (`OrderReport`).
-/

namespace HotelCpp

/-- Largest value of a 32-bit `int`. -/
def INT_MAX : Int := 2147483647

/-- Smallest value of a 32-bit `int`. -/
def INT_MIN : Int := -2147483648

/-- The value a 32-bit two's-complement `int` holds for the exact result `x`: `x` itself
when it lies between `INT_MIN` and `INT_MAX`, otherwise `x` shifted by a multiple of
2^32 into that range. -/
def wrapInt (x : Int) : Int := (x + 2147483648) % 4294967296 - 2147483648

/-- The exact value `x` fits in an `int`. -/
def InInt (x : Int) : Prop := INT_MIN ≤ x ∧ x ≤ INT_MAX

instance (x : Int) : Decidable (InInt x) := by
  unfold InInt; exact inferInstance

/-! ## `class Item` (hotel.cpp, lines 12-46) -/

/-- Fields of `class Item`. -/
structure Item where
  name : String
  price : Int
  quantity : Int
  sold : Int
deriving DecidableEq, Repr

namespace Item

/-- Constructor `Item(name, price, quantity)`: `sold` starts at 0.  The C++ default
argument `quantity = 0` is passed explicitly by the callers below. -/
def new (name : String) (price : Int) (quantity : Int) : Item :=
  { name := name, price := price, quantity := quantity, sold := 0 }

def getName (it : Item) : String := it.name
def getPrice (it : Item) : Int := it.price
def getQuantity (it : Item) : Int := it.quantity
def getSold (it : Item) : Int := it.sold
def getRemaining (it : Item) : Int := wrapInt (it.quantity - it.sold)
def getTotalSales (it : Item) : Int := wrapInt (it.sold * it.price)

/-- Body of `void setQuantity(int qty)`. -/
def setQuantity (it : Item) (qty : Int) : Item := { it with quantity := qty }

/-- Body of `bool order(int qty)`: the returned Boolean and the object afterwards. -/
def order (it : Item) (qty : Int) : Bool × Item :=
  if it.getRemaining ≥ qty then (true, { it with sold := wrapInt (it.sold + qty) })
  else (false, it)

/-- Body of `void resetSales()`. -/
def resetSales (it : Item) : Item := { it with sold := 0 }

/-- The stock predicate `0 ≤ sold ≤ quantity`. -/
def StockInv (it : Item) : Prop := 0 ≤ it.sold ∧ it.sold ≤ it.quantity

instance (it : Item) : Decidable (StockInv it) := by
  unfold StockInv; exact inferInstance

/-- Every numeric field is a value of the C++ type `int`. -/
def InIntRange (it : Item) : Prop :=
  (INT_MIN ≤ it.price ∧ it.price ≤ INT_MAX) ∧
  (INT_MIN ≤ it.quantity ∧ it.quantity ≤ INT_MAX) ∧
  (INT_MIN ≤ it.sold ∧ it.sold ≤ INT_MAX)

instance (it : Item) : Decidable (InIntRange it) := by
  unfold InIntRange; exact inferInstance

end Item

/-! ## Text of integers: `operator<<(int)` and `std::stoi` -/

/-- The character of a decimal digit `d < 10`. -/
def digitChar (d : Nat) : Char := Char.ofNat (48 + d)

/-- Decimal digits of `n`, most significant first, in front of `acc`; `fuel` bounds the
number of digits produced (`n + 1` always suffices). -/
def renderNatAux : Nat → Nat → List Char → List Char
  | 0, _, acc => acc
  | fuel + 1, n, acc =>
    if n / 10 = 0 then digitChar (n % 10) :: acc
    else renderNatAux fuel (n / 10) (digitChar (n % 10) :: acc)

/-- Decimal text of a natural number (`0` prints as "0"). -/
def renderNat (n : Nat) : List Char := renderNatAux (n + 1) n []

/-- Text written by `stream << int` with default formatting: decimal digits, a leading
'-' for a negative value, no '+' and no grouping. -/
def renderInt (v : Int) : List Char :=
  if v < 0 then '-' :: renderNat v.natAbs else renderNat v.natAbs

/-- Characters `strtol` skips in front of a number (`isspace` in the "C" locale). -/
def isSpace (c : Char) : Bool :=
  c = ' ' || c = '\t' || c = '\n' || c = Char.ofNat 11 || c = Char.ofNat 12 || c = '\r'

/-- Value of a run of decimal digits, most significant first. -/
def digitsValue (cs : List Char) : Nat :=
  cs.foldl (fun acc c => acc * 10 + (c.toNat - 48)) 0

/-- The two exceptions `std::stoi` throws. -/
inductive StoiError where
  | invalid_argument
  | out_of_range
deriving DecidableEq, Repr

/-- Sign and rest of a number text after the optional '+' or '-'. -/
def stoiSign : List Char → Bool × List Char
  | '-' :: rest => (true, rest)
  | '+' :: rest => (false, rest)
  | rest => (false, rest)

/-- Model of `std::stoi(str)` (base 10): leading white space is skipped, one optional sign
is read, then the longest run of digits; text after the digits is ignored.  No digit at
all throws `invalid_argument`, a value outside `int` throws `out_of_range`. -/
def stoi (str : List Char) : Except StoiError Int :=
  let signed := stoiSign (str.dropWhile isSpace)
  let ds := signed.2.takeWhile Char.isDigit
  if ds.isEmpty then Except.error StoiError.invalid_argument
  else
    let v : Int := if signed.1 then -(digitsValue ds : Int) else (digitsValue ds : Int)
    if v < INT_MIN ∨ INT_MAX < v then Except.error StoiError.out_of_range
    else Except.ok v

/-! ## `class Hotel` (hotel.cpp, lines 49-347) -/

/-- State of a `Hotel` object together with the two files it owns. -/
structure Hotel where
  inventory : List Item
  dataFile : Option (List Char)
  customerLogFile : Option (List Char)
deriving DecidableEq, Repr

/-- What the environment decides during one call: the text `strftime` produces for the
current time and whether each `ofstream` opens. -/
structure Env where
  timeStr : List Char
  logOpens : Bool
  dataOpens : Bool
deriving DecidableEq, Repr

/-- Inventory pushed by the constructor `Hotel::Hotel` (lines 59-64). -/
def constructorInventory : List Item :=
  [Item.new "Room" 1200 0, Item.new "Pasta" 250 0, Item.new "Burger" 120 0,
   Item.new "Noodles" 140 0, Item.new "Shake" 120 0, Item.new "Chicken Roll" 150 0]

/-- Inventory pushed by `loadData` when nothing was loaded (lines 225-230). -/
def fallbackInventory : List Item :=
  [Item.new "Room" 1200 0, Item.new "Pasta" 80 0, Item.new "Burger" 120 0,
   Item.new "Noodles" 50 0, Item.new "Shake" 120 0, Item.new "Chicken Roll" 150 0]

/-- One line of the data file: `name,price,quantity,sold` followed by `endl`. -/
def renderItem (it : Item) : List Char :=
  it.getName.data ++ ',' :: renderInt it.getPrice ++ ',' :: renderInt it.getQuantity
    ++ ',' :: renderInt it.getSold ++ ['\n']

/-- The loop of `saveData` (lines 165-170): one line per item, in order. -/
def renderInventory : List Item → List Char
  | [] => []
  | it :: rest => renderItem it ++ renderInventory rest

/-- Body of `Hotel::saveData`: when the file cannot be opened nothing changes, otherwise
the data file is replaced by the text of the current inventory. -/
def saveData (opens : Bool) (h : Hotel) : Hotel :=
  if opens then { h with dataFile := some (renderInventory h.inventory) } else h

/-- The lines successive `getline(inFile, line)` calls return: text up to each '\n', the
'\n' dropped; a final piece without '\n' is a line only when it is not empty. -/
def getlines : List Char → List (List Char)
  | [] => []
  | c :: cs =>
    if c = '\n' then [] :: getlines cs
    else
      match getlines cs with
      | [] => [[c]]
      | l :: ls => (c :: l) :: ls

/-- The `tokens` vector built by the comma loop (lines 193-197): the pieces of `line`
between commas, the piece after the last comma included. -/
def splitCommas : List Char → List (List Char)
  | [] => [[]]
  | c :: cs =>
    if c = ',' then [] :: splitCommas cs
    else
      match splitCommas cs with
      | [] => [[c]]
      | t :: ts => (c :: t) :: ts

/-- The loop `for (int i = 0; i < sold; i++) item.order(1);` run for `n` iterations. -/
def replaySold : Nat → Item → Item
  | 0, it => it
  | n + 1, it => replaySold n (it.order 1).2

/-- Body of the `try` block (lines 189-212) for one line: `Except.error` when a `stoi`
throws, `none` when the line does not have four tokens, otherwise the item pushed. -/
def parseLine (line : List Char) : Except StoiError (Option Item) :=
  match splitCommas line with
  | [t0, t1, t2, t3] =>
    match stoi t1 with
    | Except.error e => Except.error e
    | Except.ok price =>
      match stoi t2 with
      | Except.error e => Except.error e
      | Except.ok quantity =>
        match stoi t3 with
        | Except.error e => Except.error e
        | Except.ok sold =>
          Except.ok (some (replaySold sold.toNat (Item.new (String.mk t0) price quantity)))
  | _ => Except.ok none

/-- The `while (getline(...))` loop of `loadData` over the remaining lines, `inv` being
the inventory so far; a caught exception clears the inventory and leaves the loop. -/
def loadLoop : List (List Char) → List Item → List Item
  | [], inv => inv
  | line :: rest, inv =>
    match parseLine line with
    | Except.error _ => []
    | Except.ok none => loadLoop rest inv
    | Except.ok (some it) => loadLoop rest (inv ++ [it])

/-- Inventory `loadData` leaves for a data file that opened with content `content`. -/
def loadInventory (content : List Char) : List Item :=
  let inv := loadLoop (getlines content) []
  if inv.isEmpty then fallbackInventory else inv

/-- Body of `Hotel::loadData`: an absent file leaves the inventory alone. -/
def loadData (h : Hotel) : Hotel :=
  match h.dataFile with
  | none => h
  | some content => { h with inventory := loadInventory content }

/-- Constructor `Hotel::Hotel`: default inventory, then `loadData()`. -/
def Hotel.new (dataFile customerLogFile : Option (List Char)) : Hotel :=
  loadData { inventory := constructorInventory, dataFile := dataFile,
             customerLogFile := customerLogFile }

/-- The line `logTransaction` writes (lines 250-253). -/
def logLine (timeStr : List Char) (itemName : String) (quantity price : Int) : List Char :=
  timeStr ++ " - Item: ".data ++ itemName.data ++ ", Quantity: ".data ++ renderInt quantity
    ++ ", Price: $".data ++ renderInt price ++ ", Total: $".data
    ++ renderInt (wrapInt (quantity * price)) ++ ['\n']

/-- Body of `Hotel::logTransaction`: the file is opened in append mode; when it cannot be
opened only a warning is printed. -/
def logTransaction (env : Env) (itemName : String) (quantity price : Int) (h : Hotel) :
    Hotel :=
  if env.logOpens then
    let text := h.customerLogFile.getD [] ++ logLine env.timeStr itemName quantity price
    { h with customerLogFile := some text }
  else h

/-- The numbers `Hotel::processOrder` prints. -/
inductive OrderReport where
  | invalidChoice
  | bill (quantity price total : Int)
  | onlyRemaining (remaining : Int)
deriving DecidableEq, Repr

/-- Body of `Hotel::processOrder(choice)`; `quant` is the value read by `cin >> quant`. -/
def processOrder (env : Env) (choice quant : Int) (h : Hotel) : Hotel × OrderReport :=
  if choice < 1 ∨ choice > (h.inventory.length : Int) then (h, OrderReport.invalidChoice)
  else
    let index := (choice - 1).toNat
    match h.inventory.get? index with
    | none => (h, OrderReport.invalidChoice)
    | some item =>
      let ordered := item.order quant
      if ordered.1 then
        let h1 : Hotel := { h with inventory := h.inventory.set index ordered.2 }
        let h2 := logTransaction env ordered.2.getName quant ordered.2.getPrice h1
        let h3 := saveData env.dataOpens h2
        (h3, OrderReport.bill quant ordered.2.getPrice (wrapInt (quant * ordered.2.getPrice)))
      else (h, OrderReport.onlyRemaining item.getRemaining)

/-- The loop `for (int i = 0; i < sold; i++) item.order(1);` with its counter: from
counter `i`, the number of iterations still run and the item afterwards; `none` when
`fuel` iterations do not reach the end of the loop. -/
def replayLoop : Nat → Int → Int → Item → Option (Nat × Item)
  | 0, _, _, _ => none
  | fuel + 1, i, sold, item =>
    if i < sold then
      (replayLoop fuel (i + 1) sold (item.order 1).2).map (fun r => (r.1 + 1, r.2))
    else some (0, item)

/-- The loop of `Hotel::initializeInventory` (lines 74-79) from index `i` on: `qtys i` is
the value `cin >> qty` reads for item `i`. -/
def setQuantities (qtys : Nat → Int) : Nat → List Item → List Item
  | _, [] => []
  | i, it :: rest => it.setQuantity (qtys i) :: setQuantities qtys (i + 1) rest

/-- Body of `Hotel::initializeInventory`: every item gets the entered quantity, then
`saveData()`. -/
def initializeInventory (qtys : Nat → Int) (opens : Bool) (h : Hotel) : Hotel :=
  saveData opens { h with inventory := setQuantities qtys 0 h.inventory }

/-- The four numbers `displaySalesInfo` prints for one item, with the item name. -/
structure SalesLine where
  name : String
  had : Int
  sold : Int
  remaining : Int
  collection : Int
deriving DecidableEq, Repr

/-- Body of `Hotel::displaySalesInfo` (lines 139-154): the hotel afterwards, the lines
printed in order and the final value of `totalCollection`. -/
def displaySalesInfo (h : Hotel) : Hotel × List SalesLine × Int :=
  let shown := h.inventory.foldl
    (fun (acc : List SalesLine × Int) (item : Item) =>
      (acc.1 ++ [{ name := item.getName, had := item.getQuantity, sold := item.getSold,
                   remaining := item.getRemaining, collection := item.getTotalSales }],
       wrapInt (acc.2 + item.getTotalSales)))
    ([], 0)
  (h, shown)

/-- What the environment decides during a rollover: whether the data file opens for
writing, whether an existing log file opens for reading, whether the archive file opens
for writing and whether the log file opens again for truncation. -/
structure RolloverEnv where
  dataOpens : Bool
  logReadable : Bool
  archiveOpens : Bool
  clearOpens : Bool
deriving DecidableEq, Repr

/-- Body of `Hotel::archiveLogFile` (lines 278-303).  `archive` is the file named after the
current date.  `ifstream src` opens when the log file exists and is readable.  `ofstream dst`
empties the archive file as soon as it opens, also when `src` did not open.  Only when both
opened is the log copied and then reopened with `ios::trunc`. -/
def archiveLogFile (env : RolloverEnv) (h : Hotel) (archive : Option (List Char)) :
    Hotel × Option (List Char) :=
  let src : Option (List Char) := if env.logReadable then h.customerLogFile else none
  if env.archiveOpens then
    match src with
    | some log =>
      if env.clearOpens then ({ h with customerLogFile := some [] }, some log)
      else (h, some log)
    | none => (h, some [])
  else (h, archive)

/-- Body of `Hotel::resetDailySales` (lines 259-275); `choice` is the character read by
`cin >> choice`. -/
def resetDailySales (env : RolloverEnv) (choice : Char) (h : Hotel)
    (archive : Option (List Char)) : Hotel × Option (List Char) :=
  if choice = 'y' ∨ choice = 'Y' then
    let h1 : Hotel := { h with inventory := h.inventory.map Item.resetSales }
    let h2 := saveData env.dataOpens h1
    archiveLogFile env h2 archive
  else (h, archive)

end HotelCpp

namespace DbmsCpp

/-! ## The database (dbms.cpp, lines 24-134) -/

/-- A row of table `inventory`. -/
structure InventoryRow where
  id : Int
  name : String
  price : Int
  quantity : Int
  category : String
deriving DecidableEq, Repr

/-- A row of table `sales`; the columns `id` and `timestamp`, which the engine fills in,
are left out. -/
structure SalesRow where
  item_id : Int
  quantity : Int
  total_price : Int
  user_id : Int
deriving DecidableEq, Repr

/-- Content of the two tables the order path touches. -/
structure Tables where
  inventory : List InventoryRow
  sales : List SalesRow
deriving DecidableEq, Repr

/-- The statements `OrderManager` and `InventoryManager` pass to `executeQuery`. -/
inductive Query where
  | beginTransaction
  | commit
  | rollback
  | updateQuantity (newQuantity itemId : Int)
  | insertSale (itemId quantity totalPrice userId : Int)
deriving DecidableEq, Repr

/-- The connection: current tables, the tables as they were at `BEGIN` while a
transaction is open, and every statement passed to `executeQuery` so far. -/
structure Database where
  tables : Tables
  snapshot : Option Tables
  issued : List Query
deriving DecidableEq, Repr

/-- Which of the two data statements the engine accepts during one order. -/
structure Faults where
  updateOk : Bool
  insertOk : Bool
deriving DecidableEq, Repr

/-- `UPDATE inventory SET quantity = newQuantity WHERE id = itemId`. -/
def setQuantityRows (rows : List InventoryRow) (newQuantity itemId : Int) :
    List InventoryRow :=
  rows.map (fun r => if r.id = itemId then { r with quantity := newQuantity } else r)

/-- `Database::executeQuery` for a statement the engine accepts (`accepted`) or refuses.
A refused statement changes nothing.  `BEGIN` saves the tables, `ROLLBACK` restores them,
`COMMIT` forgets the saved copy; each is refused when the transaction state does not
allow it. -/
def executeQuery (accepted : Bool) (q : Query) (db : Database) : Bool × Database :=
  let db1 : Database := { db with issued := db.issued ++ [q] }
  if accepted then
    match q with
    | Query.beginTransaction =>
      match db.snapshot with
      | none => (true, { db1 with snapshot := some db.tables })
      | some _ => (false, db1)
    | Query.commit =>
      match db.snapshot with
      | some _ => (true, { db1 with snapshot := none })
      | none => (false, db1)
    | Query.rollback =>
      match db.snapshot with
      | some saved => (true, { db1 with tables := saved, snapshot := none })
      | none => (false, db1)
    | Query.updateQuantity newQuantity itemId =>
      let inv := setQuantityRows db.tables.inventory newQuantity itemId
      (true, { db1 with tables := { db.tables with inventory := inv } })
    | Query.insertSale itemId quantity totalPrice userId =>
      let row : SalesRow :=
        { item_id := itemId, quantity := quantity, total_price := totalPrice,
          user_id := userId }
      (true, { db1 with tables := { db.tables with sales := db.tables.sales ++ [row] } })
  else (false, db1)

/-- Rows inserted by `Database::initializeTables` (lines 126-132) into a new database;
`AUTOINCREMENT` numbers them 1 to 6. -/
def seededInventory : List InventoryRow :=
  [⟨1, "Room", 1200, 10, "accommodation"⟩, ⟨2, "Pasta", 250, 50, "food"⟩,
   ⟨3, "Burger", 120, 50, "food"⟩, ⟨4, "Noodles", 140, 50, "food"⟩,
   ⟨5, "Shake", 120, 50, "drink"⟩, ⟨6, "Chicken Roll", 150, 50, "food"⟩]

/-- The connection right after `connect()` on a new database file. -/
def freshDatabase : Database :=
  { tables := { inventory := seededInventory, sales := [] }, snapshot := none, issued := [] }

/-! ## `class Item`, `InventoryManager`, `OrderManager`, `HotelApp` -/

/-- Fields of `class Item` of dbms.cpp. -/
structure Item where
  id : Int
  name : String
  price : Int
  category : String
deriving DecidableEq, Repr

/-- The item a row of `inventory` is read into. -/
def InventoryRow.toItem (r : InventoryRow) : Item :=
  { id := r.id, name := r.name, price := r.price, category := r.category }

/-- Ordering of `ORDER BY category, name`: text compared character by character. -/
def rowOrder (a b : InventoryRow) : Prop :=
  a.category.data < b.category.data ∨ (a.category = b.category ∧ a.name.data ≤ b.name.data)

instance : DecidableRel rowOrder := fun a b => by
  unfold rowOrder; exact inferInstance

/-- `InventoryManager::getAllItems`: every row, ordered by category then name. -/
def getAllItems (db : Database) : List Item :=
  (db.tables.inventory.insertionSort rowOrder).map InventoryRow.toItem

/-- `InventoryManager::getItemById`: the callback runs for every row with the given id
and overwrites `item`, which starts as `Item(0, "", 0, "")`. -/
def getItemById (db : Database) (id : Int) : Item :=
  db.tables.inventory.foldl (fun item r => if r.id = id then r.toItem else item)
    { id := 0, name := "", price := 0, category := "" }

/-- `InventoryManager::getQuantity`: the `quantity` column of the row, 0 without a row. -/
def getQuantity (db : Database) (itemId : Int) : Int :=
  db.tables.inventory.foldl (fun quantity r => if r.id = itemId then r.quantity else quantity) 0

/-- `InventoryManager::updateQuantity`. -/
def updateQuantity (f : Faults) (itemId newQuantity : Int) (db : Database) :
    Bool × Database :=
  executeQuery f.updateOk (Query.updateQuantity newQuantity itemId) db

/-- `InventoryManager::decreaseQuantity`. -/
def decreaseQuantity (f : Faults) (itemId amount : Int) (db : Database) : Bool × Database :=
  let currentQty := getQuantity db itemId
  if currentQty ≥ amount then updateQuantity f itemId (HotelCpp.wrapInt (currentQty - amount)) db
  else (false, db)

/-- Result of `OrderManager::processOrder`: the returned Boolean, the connection
afterwards, the count printed in "Only N available" and the total printed in the bill. -/
structure OrderOutcome where
  result : Bool
  db : Database
  available : Option Int
  billTotal : Option Int
deriving DecidableEq, Repr

/-- Body of `OrderManager::processOrder(itemId, quantity, userId)`. -/
def processOrder (f : Faults) (itemId quantity userId : Int) (db : Database) :
    OrderOutcome :=
  let item := getItemById db itemId
  let currentQty := getQuantity db itemId
  if currentQty < quantity then
    { result := false, db := db, available := some currentQty, billTotal := none }
  else
    let totalPrice := HotelCpp.wrapInt (item.price * quantity)
    let db1 := (executeQuery true Query.beginTransaction db).2
    let dec := decreaseQuantity f itemId quantity db1
    let ins := executeQuery f.insertOk (Query.insertSale itemId quantity totalPrice userId) dec.2
    if dec.1 && ins.1 then
      { result := true, db := (executeQuery true Query.commit ins.2).2, available := none,
        billTotal := some totalPrice }
    else
      { result := false, db := (executeQuery true Query.rollback ins.2).2, available := none,
        billTotal := none }

/-- What the purchase branch of `HotelApp::processMenuChoice` did. -/
inductive PurchaseReport where
  | notAnItem
  | invalidQuantity
  | ordered (outcome : OrderOutcome)
deriving DecidableEq, Repr

/-- The purchase branch of `HotelApp::processMenuChoice` (lines 586-603): `quantity` is
the value read by `cin >> quantity`; the order is placed only for `quantity > 0`. -/
def purchase (f : Faults) (choice quantity currentUserId : Int) (db : Database) :
    Database × PurchaseReport :=
  let items := getAllItems db
  if choice ≥ 1 ∧ choice ≤ (items.length : Int) then
    match items.get? (choice - 1).toNat with
    | none => (db, PurchaseReport.notAnItem)
    | some item =>
      if quantity > 0 then
        let outcome := processOrder f item.id quantity currentUserId db
        (outcome.db, PurchaseReport.ordered outcome)
      else (db, PurchaseReport.invalidQuantity)
  else (db, PurchaseReport.notAnItem)

/-- The inventory with the quantity of item `itemId` reduced by `quantity`, every other
row kept: the debit as the specification words it. -/
def debitSpec (rows : List InventoryRow) (itemId quantity : Int) : List InventoryRow :=
  rows.map (fun r => if r.id = itemId then { r with quantity := r.quantity - quantity } else r)

/-- `SUM(quantity)` over the rows of `sales` recorded for item `itemId`. -/
def salesQuantity (db : Database) (itemId : Int) : Int :=
  ((db.tables.sales.filter (fun s => s.item_id = itemId)).map SalesRow.quantity).sum

/-- A flat-file item and an inventory row describe the same stock: same price, and the
item's remaining count is the row's quantity. -/
def Related (it : HotelCpp.Item) (r : InventoryRow) : Prop :=
  it.price = r.price ∧ it.quantity - it.sold = r.quantity

instance (it : HotelCpp.Item) (r : InventoryRow) : Decidable (Related it r) := by
  unfold Related; exact inferInstance

/-! ## `sqlEscape` (dbms.cpp, lines 140-148) -/

/-- The single-quote character. -/
def quote : Char := Char.ofNat 39

/-- Search for the first single quote in `cs`, whose head has index `i`. -/
def findQuoteAux : List Char → Nat → Option Nat
  | [], _ => none
  | c :: cs, i => if c = quote then some i else findQuoteAux cs (i + 1)

/-- `result.find("'", pos)`: the first index at or after `pos` holding a single quote,
`none` for `npos`. -/
def findQuote (result : List Char) (pos : Nat) : Option Nat :=
  findQuoteAux (result.drop pos) pos

/-- `result.replace(pos, 1, "''")`: the character at `pos` replaced by two quotes. -/
def replaceQuote (result : List Char) (pos : Nat) : List Char :=
  result.take pos ++ quote :: quote :: result.drop (pos + 1)

/-- The `while` loop of `sqlEscape` from the state (`result`, `pos`); `none` when `fuel`
iterations do not reach the end of the loop. -/
def sqlEscapeLoop : Nat → List Char → Nat → Option (List Char)
  | 0, _, _ => none
  | fuel + 1, result, pos =>
    match findQuote result pos with
    | none => some result
    | some p => sqlEscapeLoop fuel (replaceQuote result p) (p + 2)

/-- Body of `sqlEscape(input)`; one iteration per quote of the input, so
`input.length + 1` iterations always suffice. -/
def sqlEscape (input : List Char) : Option (List Char) :=
  sqlEscapeLoop (input.length + 1) input 0

/-- The input with every single quote replaced by two single quotes and every other
character kept in place: the result as the specification words it. -/
def escapeSpec : List Char → List Char
  | [] => []
  | c :: cs => if c = quote then quote :: quote :: escapeSpec cs else c :: escapeSpec cs

/-- Replacing each pair of single quotes by one single quote, left to right. -/
def unescapeSpec : List Char → List Char
  | [] => []
  | [c] => [c]
  | c :: d :: cs =>
    if c = quote ∧ d = quote then quote :: unescapeSpec cs else c :: unescapeSpec (d :: cs)

end DbmsCpp

/-! # Lemmas about the flat-file backend -/

namespace HotelCpp

theorem wrapInt_of_inInt (x : Int) (hlo : INT_MIN ≤ x) (hhi : x ≤ INT_MAX) : wrapInt x = x := by
  unfold INT_MIN at hlo
  unfold INT_MAX at hhi
  unfold wrapInt
  omega

theorem wrapInt_inInt (x : Int) : INT_MIN ≤ wrapInt x ∧ wrapInt x ≤ INT_MAX := by
  unfold INT_MIN INT_MAX wrapInt
  omega

theorem wrapInt_add_left (a b : Int) : wrapInt (wrapInt a + b) = wrapInt (a + b) := by
  unfold wrapInt
  omega

theorem wrapInt_add_right (a b : Int) : wrapInt (a + wrapInt b) = wrapInt (a + b) := by
  unfold wrapInt
  omega

theorem wrapInt_sub_right (a b : Int) : wrapInt (a - wrapInt b) = wrapInt (a - b) := by
  unfold wrapInt
  omega

theorem wrapInt_sub_left (a b : Int) : wrapInt (wrapInt a - b) = wrapInt (a - b) := by
  unfold wrapInt
  omega

theorem choice_le_length (choice : Int) (inv : List Item) (item : Item) (hlo : 1 ≤ choice)
    (hitem : inv.get? (choice - 1).toNat = some item) :
    ¬ (choice < 1 ∨ choice > (inv.length : Int)) := by
  obtain ⟨hlt, _⟩ := List.get?_eq_some.mp hitem
  omega

theorem processOrder_rejected (env : Env) (choice quant : Int) (h : Hotel) (item : Item)
    (hlo : 1 ≤ choice) (hitem : h.inventory.get? (choice - 1).toNat = some item)
    (hq : item.getRemaining < quant) :
    processOrder env choice quant h = (h, OrderReport.onlyRemaining item.getRemaining) := by
  have hc := choice_le_length choice h.inventory item hlo hitem
  have hn : ¬ item.getRemaining ≥ quant := not_le.mpr hq
  unfold processOrder
  rw [if_neg hc]
  simp only [hitem, Item.order, if_neg hn]
  rfl

theorem processOrder_accepted (env : Env) (choice quant : Int) (h : Hotel) (item : Item)
    (hlo : 1 ≤ choice) (hitem : h.inventory.get? (choice - 1).toNat = some item)
    (hq : quant ≤ item.getRemaining) :
    processOrder env choice quant h =
      (saveData env.dataOpens
        (logTransaction env item.name quant item.price
          { h with inventory :=
              (h.inventory.set (choice - 1).toNat
                { item with sold := wrapInt (item.sold + quant) }) }),
       OrderReport.bill quant item.price (wrapInt (quant * item.price))) := by
  have hc := choice_le_length choice h.inventory item hlo hitem
  have hn : item.getRemaining ≥ quant := hq
  unfold processOrder
  rw [if_neg hc]
  simp only [hitem, Item.order, if_pos hn]
  rfl

theorem digitChar_isDigit (d : Nat) (h : d < 10) : (digitChar d).isDigit = true := by
  interval_cases d <;> decide

theorem digitChar_value (d : Nat) (h : d < 10) : (digitChar d).toNat - 48 = d := by
  interval_cases d <;> decide

theorem renderNatAux_spec (fuel n : Nat) (acc : List Char) (h : n < fuel) :
    ∃ ds : List Char, renderNatAux fuel n acc = ds ++ acc ∧ ds ≠ [] ∧
      (∀ c ∈ ds, c.isDigit = true) ∧
      ∀ k : Nat, ds.foldl (fun a c => a * 10 + (c.toNat - 48)) k = k * 10 ^ ds.length + n := by
  induction fuel generalizing n acc with
  | zero => omega
  | succ fuel ih =>
    unfold renderNatAux
    by_cases h0 : n / 10 = 0
    · rw [if_pos h0]
      have hn : n < 10 := by omega
      refine ⟨[digitChar (n % 10)], rfl, by simp, ?_, ?_⟩
      · intro c hc
        rw [List.mem_singleton] at hc
        subst hc
        exact digitChar_isDigit _ (Nat.mod_lt _ (by decide))
      · intro k
        simp only [List.foldl_cons, List.foldl_nil, List.length_singleton, pow_one]
        rw [digitChar_value _ (Nat.mod_lt _ (by decide))]
        omega
    · rw [if_neg h0]
      have hlt : n / 10 < fuel := by omega
      obtain ⟨ds, hds, hne, hdig, hval⟩ := ih (n / 10) (digitChar (n % 10) :: acc) hlt
      refine ⟨ds ++ [digitChar (n % 10)], ?_, by simp, ?_, ?_⟩
      · rw [hds]; simp
      · intro c hc
        rcases List.mem_append.mp hc with hc | hc
        · exact hdig c hc
        · rw [List.mem_singleton] at hc
          subst hc
          exact digitChar_isDigit _ (Nat.mod_lt _ (by decide))
      · intro k
        rw [List.foldl_append, hval k]
        simp only [List.foldl_cons, List.foldl_nil, List.length_append, List.length_singleton]
        rw [digitChar_value _ (Nat.mod_lt _ (by decide)), pow_succ]
        have := Nat.div_add_mod n 10
        nlinarith [Nat.div_add_mod n 10]

theorem renderNat_spec (n : Nat) :
    renderNat n ≠ [] ∧ (∀ c ∈ renderNat n, c.isDigit = true) ∧ digitsValue (renderNat n) = n := by
  obtain ⟨ds, hds, hne, hdig, hval⟩ := renderNatAux_spec (n + 1) n [] (Nat.lt_succ_self n)
  have h : renderNat n = ds := by unfold renderNat; rw [hds, List.append_nil]
  rw [h]
  refine ⟨hne, hdig, ?_⟩
  unfold digitsValue
  rw [hval 0]; simp

theorem isDigit_not_special (c : Char) (h : c.isDigit = true) :
    isSpace c = false ∧ c ≠ '-' ∧ c ≠ '+' ∧ c ≠ ',' ∧ c ≠ '\n' := by
  refine ⟨?_, ?_, ?_, ?_, ?_⟩
  · cases hs : isSpace c with
    | false => rfl
    | true =>
      exfalso
      simp only [isSpace, Bool.or_eq_true, decide_eq_true_eq] at hs
      rcases hs with ((((hs | hs) | hs) | hs) | hs) | hs <;> subst hs <;> exact absurd h (by decide)
  all_goals (rintro rfl; exact absurd h (by decide))

theorem takeWhile_all {α : Type} (p : α → Bool) (l : List α) (h : ∀ x ∈ l, p x = true) :
    l.takeWhile p = l := by
  induction l with
  | nil => rfl
  | cons a t ih =>
    rw [List.takeWhile_cons, if_pos (h a (List.mem_cons_self a t)),
      ih (fun x hx => h x (List.mem_cons_of_mem a hx))]

theorem stoiSign_digit (c : Char) (rest : List Char) (h : c.isDigit = true) :
    stoiSign (c :: rest) = (false, c :: rest) := by
  obtain ⟨_, h1, h2, _, _⟩ := isDigit_not_special c h
  unfold stoiSign
  split
  · rename_i heq; cases heq; exact absurd rfl h1
  · rename_i heq; cases heq; exact absurd rfl h2
  · rfl

theorem stoi_of_sign (str ds : List Char) (neg : Bool)
    (hsign : stoiSign (str.dropWhile isSpace) = (neg, ds))
    (hne : ds ≠ []) (hdig : ∀ c ∈ ds, c.isDigit = true)
    (hlo : INT_MIN ≤ (if neg then -(digitsValue ds : Int) else (digitsValue ds : Int)))
    (hhi : (if neg then -(digitsValue ds : Int) else (digitsValue ds : Int)) ≤ INT_MAX) :
    stoi str = Except.ok (if neg then -(digitsValue ds : Int) else (digitsValue ds : Int)) := by
  have he : ds.isEmpty = false := by
    cases ds with
    | nil => exact absurd rfl hne
    | cons _ _ => rfl
  have hr : ¬ ((if neg then -(digitsValue ds : Int) else (digitsValue ds : Int)) < INT_MIN ∨
      INT_MAX < (if neg then -(digitsValue ds : Int) else (digitsValue ds : Int))) := by
    intro h
    rcases h with h | h
    · exact absurd hlo (not_le.mpr h)
    · exact absurd hhi (not_le.mpr h)
  unfold stoi
  rw [hsign]
  show (if (List.takeWhile Char.isDigit ds).isEmpty = true then _ else _) = _
  rw [takeWhile_all _ _ hdig, he, if_neg (by decide)]
  show (if _ then _ else _) = _
  rw [if_neg hr]

theorem stoi_digits (ds : List Char) (hne : ds ≠ []) (hdig : ∀ c ∈ ds, c.isDigit = true)
    (hmax : (digitsValue ds : Int) ≤ INT_MAX) :
    stoi ds = Except.ok (digitsValue ds : Int) := by
  cases ds with
  | nil => exact absurd rfl hne
  | cons c rest =>
    have hc := hdig c (List.mem_cons_self c rest)
    have hsp := (isDigit_not_special c hc).1
    have hdrop : (c :: rest).dropWhile isSpace = c :: rest := by
      rw [List.dropWhile_cons, hsp]; rfl
    have hs : stoiSign ((c :: rest).dropWhile isSpace) = (false, c :: rest) := by
      rw [hdrop, stoiSign_digit c rest hc]
    have h := stoi_of_sign (c :: rest) (c :: rest) false hs hne hdig
      (by unfold INT_MIN; simp only [Bool.false_eq_true, if_false]; omega)
      (by simpa using hmax)
    simpa using h

theorem stoi_neg_digits (ds : List Char) (hne : ds ≠ []) (hdig : ∀ c ∈ ds, c.isDigit = true)
    (hmin : INT_MIN ≤ -(digitsValue ds : Int)) :
    stoi ('-' :: ds) = Except.ok (-(digitsValue ds : Int)) := by
  have hs : stoiSign (('-' :: ds).dropWhile isSpace) = (true, ds) := by
    rw [List.dropWhile_cons, (by decide : isSpace '-' = false)]; rfl
  have h := stoi_of_sign ('-' :: ds) ds true hs hne hdig
    (by simpa using hmin)
    (by unfold INT_MAX; simp only [if_true]; omega)
  simpa using h

theorem stoi_renderInt (v : Int) (hlo : INT_MIN ≤ v) (hhi : v ≤ INT_MAX) :
    stoi (renderInt v) = Except.ok v := by
  obtain ⟨hne, hdig, hval⟩ := renderNat_spec v.natAbs
  unfold renderInt
  by_cases hv : v < 0
  · rw [if_pos hv, stoi_neg_digits _ hne hdig (by rw [hval]; omega), hval]
    congr 1; omega
  · rw [if_neg hv, stoi_digits _ hne hdig (by rw [hval]; omega), hval]
    congr 1; omega

theorem renderInt_chars (v : Int) : ∀ c ∈ renderInt v, c ≠ ',' ∧ c ≠ '\n' := by
  obtain ⟨_, hdig, _⟩ := renderNat_spec v.natAbs
  intro c hc
  unfold renderInt at hc
  have hd : ∀ c ∈ renderNat v.natAbs, c ≠ ',' ∧ c ≠ '\n' := fun c hc =>
    ⟨(isDigit_not_special c (hdig c hc)).2.2.2.1, (isDigit_not_special c (hdig c hc)).2.2.2.2⟩
  split at hc
  · rcases List.mem_cons.mp hc with rfl | hc
    · exact ⟨by decide, by decide⟩
    · exact hd c hc
  · exact hd c hc

theorem splitCommas_no_comma (s : List Char) (h : ∀ c ∈ s, c ≠ ',') : splitCommas s = [s] := by
  induction s with
  | nil => rfl
  | cons c cs ih =>
    unfold splitCommas
    rw [if_neg (h c (List.mem_cons_self c cs)), ih (fun x hx => h x (List.mem_cons_of_mem c hx))]

theorem splitCommas_cons (c : Char) (cs : List Char) :
    splitCommas (c :: cs) =
      if c = ',' then [] :: splitCommas cs
      else
        match splitCommas cs with
        | [] => [[c]]
        | t :: ts => (c :: t) :: ts := rfl

theorem getlines_cons (c : Char) (cs : List Char) :
    getlines (c :: cs) =
      if c = '\n' then [] :: getlines cs
      else
        match getlines cs with
        | [] => [[c]]
        | l :: ls => (c :: l) :: ls := rfl

theorem splitCommas_append (a rest : List Char) (h : ∀ c ∈ a, c ≠ ',') :
    splitCommas (a ++ ',' :: rest) = a :: splitCommas rest := by
  induction a with
  | nil =>
    show splitCommas (',' :: rest) = _
    rw [splitCommas_cons, if_pos rfl]
  | cons c cs ih =>
    show splitCommas (c :: (cs ++ ',' :: rest)) = _
    rw [splitCommas_cons, if_neg (h c (List.mem_cons_self c cs)),
      ih (fun x hx => h x (List.mem_cons_of_mem c hx))]

theorem getlines_append (line rest : List Char) (h : ∀ c ∈ line, c ≠ '\n') :
    getlines (line ++ '\n' :: rest) = line :: getlines rest := by
  induction line with
  | nil =>
    show getlines ('\n' :: rest) = _
    rw [getlines_cons, if_pos rfl]
  | cons c cs ih =>
    show getlines (c :: (cs ++ '\n' :: rest)) = _
    rw [getlines_cons, if_neg (h c (List.mem_cons_self c cs)),
      ih (fun x hx => h x (List.mem_cons_of_mem c hx))]

theorem replaySold_spec (n : Nat) (name : String) (price quantity sold : Int)
    (h : sold + n ≤ quantity) (h0 : 0 ≤ sold) (hmax : quantity ≤ INT_MAX) :
    replaySold n ⟨name, price, quantity, sold⟩ = ⟨name, price, quantity, sold + n⟩ := by
  induction n generalizing sold with
  | zero => simp [replaySold]
  | succ n ih =>
    unfold INT_MAX at hmax
    have h1 : (⟨name, price, quantity, sold⟩ : Item).getRemaining ≥ 1 := by
      simp only [Item.getRemaining, wrapInt]; push_cast at h; omega
    have h2 : wrapInt (sold + 1) = sold + 1 := by
      unfold wrapInt; push_cast at h; omega
    unfold replaySold
    simp only [Item.order, if_pos h1, h2]
    rw [ih (sold + 1) (by push_cast at h ⊢; omega) (by omega)]
    congr 1
    push_cast; ring

theorem renderItem_eq (it : Item) :
    renderItem it = (it.name.data ++ ',' :: (renderInt it.price ++ ',' ::
      (renderInt it.quantity ++ ',' :: renderInt it.sold))) ++ ['\n'] := by
  simp [renderItem, Item.getName, Item.getPrice, Item.getQuantity, Item.getSold]

theorem parseLine_renderItem (it : Item) (hinv : Item.StockInv it) (hr : it.InIntRange)
    (hname : ∀ c ∈ it.name.data, c ≠ ',') :
    parseLine (it.name.data ++ ',' :: (renderInt it.price ++ ',' ::
      (renderInt it.quantity ++ ',' :: renderInt it.sold))) = Except.ok (some it) := by
  obtain ⟨⟨hp1, hp2⟩, ⟨hq1, hq2⟩, ⟨hs1, hs2⟩⟩ := hr
  have htok : splitCommas (it.name.data ++ ',' :: (renderInt it.price ++ ',' ::
      (renderInt it.quantity ++ ',' :: renderInt it.sold)))
      = [it.name.data, renderInt it.price, renderInt it.quantity, renderInt it.sold] := by
    rw [splitCommas_append _ _ hname,
      splitCommas_append _ _ (fun c hc => (renderInt_chars _ c hc).1),
      splitCommas_append _ _ (fun c hc => (renderInt_chars _ c hc).1),
      splitCommas_no_comma _ (fun c hc => (renderInt_chars _ c hc).1)]
  unfold parseLine
  rw [htok]
  simp only [stoi_renderInt it.price hp1 hp2, stoi_renderInt it.quantity hq1 hq2,
    stoi_renderInt it.sold hs1 hs2]
  have hrep := replaySold_spec it.sold.toNat it.name it.price it.quantity 0
    (by have := hinv.1; have := hinv.2; omega) (le_refl 0) hq2
  have hsold : (0 : Int) + (it.sold.toNat : Int) = it.sold := by
    have := hinv.1; omega
  rw [hsold] at hrep
  show Except.ok (some (replaySold it.sold.toNat ⟨it.name, it.price, it.quantity, 0⟩)) = _
  rw [hrep]

theorem loadLoop_render (inv acc : List Item)
    (hwf : ∀ it ∈ inv, Item.StockInv it ∧ it.InIntRange ∧
      (∀ c ∈ it.name.data, c ≠ ',') ∧ (∀ c ∈ it.name.data, c ≠ '\n')) :
    loadLoop (getlines (renderInventory inv)) acc = acc ++ inv := by
  induction inv generalizing acc with
  | nil => simp [renderInventory, getlines, loadLoop]
  | cons it rest ih =>
    obtain ⟨hinv, hr, hc, hn⟩ := hwf it (List.mem_cons_self it rest)
    have hline : ∀ c ∈ (it.name.data ++ ',' :: (renderInt it.price ++ ',' ::
        (renderInt it.quantity ++ ',' :: renderInt it.sold))), c ≠ '\n' := by
      intro c hcm
      simp only [List.mem_append, List.mem_cons] at hcm
      rcases hcm with h | rfl | h | rfl | h | rfl | h
      · exact hn c h
      · decide
      · exact (renderInt_chars _ c h).2
      · decide
      · exact (renderInt_chars _ c h).2
      · decide
      · exact (renderInt_chars _ c h).2
    unfold renderInventory
    rw [renderItem_eq, List.append_assoc, List.singleton_append, getlines_append _ _ hline]
    unfold loadLoop
    rw [parseLine_renderItem it hinv hr hc]
    simp only []
    rw [ih (acc ++ [it]) (fun x hx => hwf x (List.mem_cons_of_mem it hx))]
    simp

end HotelCpp

/-! # Lemmas about the transactional backend -/

namespace DbmsCpp

theorem foldl_pick_skip {α : Type} (g : InventoryRow → α) (rows : List InventoryRow)
    (itemId : Int) (init : α) (h : ∀ r ∈ rows, r.id ≠ itemId) :
    rows.foldl (fun acc r => if r.id = itemId then g r else acc) init = init := by
  induction rows generalizing init with
  | nil => rfl
  | cons a t ih =>
    have ha : a.id ≠ itemId := h a (List.mem_cons_self a t)
    simp only [List.foldl_cons, if_neg ha]
    exact ih init (fun r hr => h r (List.mem_cons_of_mem a hr))

theorem foldl_pick_of_mem {α : Type} (g : InventoryRow → α) (rows : List InventoryRow)
    (r : InventoryRow) (init : α)
    (hkey : (rows.map InventoryRow.id).Nodup) (hr : r ∈ rows) :
    rows.foldl (fun acc x => if x.id = r.id then g x else acc) init = g r := by
  induction rows generalizing init with
  | nil => cases hr
  | cons a t ih =>
    rw [List.map_cons, List.nodup_cons] at hkey
    rcases List.mem_cons.mp hr with rfl | hmem
    · simp only [List.foldl_cons, if_true]
      apply foldl_pick_skip
      intro x hx hxe
      exact hkey.1 (hxe ▸ List.mem_map_of_mem InventoryRow.id hx)
    · simp only [List.foldl_cons]
      exact ih _ hkey.2 hmem

theorem getQuantity_of_mem (db : Database) (r : InventoryRow)
    (hkey : (db.tables.inventory.map InventoryRow.id).Nodup) (hr : r ∈ db.tables.inventory) :
    getQuantity db r.id = r.quantity :=
  foldl_pick_of_mem InventoryRow.quantity db.tables.inventory r 0 hkey hr

theorem getItemById_of_mem (db : Database) (r : InventoryRow)
    (hkey : (db.tables.inventory.map InventoryRow.id).Nodup) (hr : r ∈ db.tables.inventory) :
    getItemById db r.id = r.toItem :=
  foldl_pick_of_mem InventoryRow.toItem db.tables.inventory r _ hkey hr

theorem setQuantityRows_eq_debitSpec (db : Database) (itemId quantity : Int)
    (hkey : (db.tables.inventory.map InventoryRow.id).Nodup) :
    setQuantityRows db.tables.inventory (getQuantity db itemId - quantity) itemId
      = debitSpec db.tables.inventory itemId quantity := by
  unfold setQuantityRows debitSpec
  apply List.map_congr_left
  intro r hr
  by_cases h : r.id = itemId
  · subst h
    simp only [if_true, getQuantity_of_mem db r hkey hr]
  · simp only [if_neg h]

theorem setQuantityRows_wrap_eq_debitSpec (db : Database) (r : InventoryRow) (quantity : Int)
    (hkey : (db.tables.inventory.map InventoryRow.id).Nodup) (hr : r ∈ db.tables.inventory)
    (hle : quantity ≤ r.quantity) (hfit : r.quantity - quantity ≤ HotelCpp.INT_MAX) :
    setQuantityRows db.tables.inventory
        (HotelCpp.wrapInt (getQuantity db r.id - quantity)) r.id
      = debitSpec db.tables.inventory r.id quantity := by
  have hq : getQuantity db r.id = r.quantity := getQuantity_of_mem db r hkey hr
  have hw : HotelCpp.wrapInt (getQuantity db r.id - quantity)
      = getQuantity db r.id - quantity := by
    rw [hq]
    apply HotelCpp.wrapInt_of_inInt _ _ hfit
    unfold HotelCpp.INT_MIN
    omega
  rw [hw]
  exact setQuantityRows_eq_debitSpec db r.id quantity hkey

theorem processOrder_cases (f : Faults) (itemId quantity userId : Int) (db : Database)
    (hopen : db.snapshot = none) :
    processOrder f itemId quantity userId db =
      if getQuantity db itemId < quantity then
        { result := false, db := db, available := some (getQuantity db itemId), billTotal := none }
      else if f.updateOk && f.insertOk then
        { result := true,
          db := { tables :=
                    { inventory := setQuantityRows db.tables.inventory
                        (HotelCpp.wrapInt (getQuantity db itemId - quantity)) itemId,
                      sales := db.tables.sales ++
                        [⟨itemId, quantity, HotelCpp.wrapInt ((getItemById db itemId).price * quantity), userId⟩] },
                  snapshot := none,
                  issued := db.issued ++
                    [Query.beginTransaction,
                     Query.updateQuantity (HotelCpp.wrapInt (getQuantity db itemId - quantity)) itemId,
                     Query.insertSale itemId quantity
                       (HotelCpp.wrapInt ((getItemById db itemId).price * quantity)) userId,
                     Query.commit] },
          available := none,
          billTotal := some (HotelCpp.wrapInt ((getItemById db itemId).price * quantity)) }
      else
        { result := false,
          db := { tables := db.tables,
                  snapshot := none,
                  issued := db.issued ++
                    [Query.beginTransaction,
                     Query.updateQuantity (HotelCpp.wrapInt (getQuantity db itemId - quantity)) itemId,
                     Query.insertSale itemId quantity
                       (HotelCpp.wrapInt ((getItemById db itemId).price * quantity)) userId,
                     Query.rollback] },
          available := none,
          billTotal := none } := by
  obtain ⟨tables, snapshot, issued⟩ := db
  simp only at hopen
  subst hopen
  obtain ⟨u, i⟩ := f
  unfold processOrder
  by_cases hq : getQuantity ⟨tables, none, issued⟩ itemId < quantity
  · simp only [if_pos hq]
  · have hge : getQuantity ⟨tables, none, issued⟩ itemId ≥ quantity := not_lt.mp hq
    cases u <;> cases i <;>
      simp [hq, hge, executeQuery, decreaseQuantity, updateQuantity, getQuantity, getItemById] <;>
      simp [getQuantity] at hge <;> simp [hge]

theorem purchase_nonpos (f : Faults) (choice quantity currentUserId : Int) (db : Database)
    (hq : quantity ≤ 0) :
    purchase f choice quantity currentUserId db = (db, PurchaseReport.notAnItem) ∨
    purchase f choice quantity currentUserId db = (db, PurchaseReport.invalidQuantity) := by
  have hn : ¬ quantity > 0 := not_lt.mpr hq
  unfold purchase
  simp only []
  split
  · split
    · exact Or.inl rfl
    · exact Or.inr rfl
  · exact Or.inl rfl

end DbmsCpp

/-! # The claims -/

namespace HotelCpp

/-- C1 (counterexample): an item with quantity 5 and sold 3 satisfies `0 ≤ sold ≤ quantity`,
yet `setQuantity(1)` leaves sold 3 > quantity 1, and `order(-4)` leaves sold = -1. -/
theorem c1_stockInv_not_invariant :
    Item.StockInv ⟨"Room", 1200, 5, 3⟩ ∧
    ¬ Item.StockInv (Item.setQuantity ⟨"Room", 1200, 5, 3⟩ 1) ∧
    ¬ Item.StockInv (Item.order ⟨"Room", 1200, 5, 3⟩ (-4)).2 := by
  decide

/-- C1 (amended): `0 ≤ sold ≤ quantity` holds after construction with quantity ≥ 0; from a
state where it holds, for an item whose fields are `int` values, it is kept by
`resetSales()`, by `order(qty)` for every `qty ≥ 0`, and by `setQuantity(q)` exactly when
`q ≥ sold`. -/
theorem c1_stockInv_amended (name : String) (price quantity : Int) (it : Item) (qty q : Int)
    (hq : 0 ≤ quantity) (hinv : Item.StockInv it) (hrange : it.InIntRange) (hqty : 0 ≤ qty) :
    Item.StockInv (Item.new name price quantity) ∧
    Item.StockInv (Item.resetSales it) ∧
    Item.StockInv (Item.order it qty).2 ∧
    (Item.StockInv (Item.setQuantity it q) ↔ it.sold ≤ q) := by
  obtain ⟨h0, h1⟩ := hinv
  obtain ⟨_, ⟨_, hmax⟩, _⟩ := hrange
  unfold INT_MAX at hmax
  refine ⟨⟨le_refl _, hq⟩, ⟨le_refl _, le_trans h0 h1⟩, ?_, ?_⟩
  · unfold Item.order Item.getRemaining wrapInt
    split
    · refine ⟨?_, ?_⟩ <;> simp only <;> omega
    · exact ⟨h0, h1⟩
  · simp only [Item.StockInv, Item.setQuantity]
    exact ⟨fun h => h.2, fun h => ⟨h0, h⟩⟩

/-- Witness of C1 (amended): a Burger item with quantity 50 and 7 sold. -/
theorem c1_stockInv_amended_witness :
    Item.StockInv (Item.new "Burger" 120 50) ∧
    Item.StockInv (Item.resetSales ⟨"Burger", 120, 50, 7⟩) ∧
    Item.StockInv (Item.order ⟨"Burger", 120, 50, 7⟩ 3).2 ∧
    (Item.StockInv (Item.setQuantity ⟨"Burger", 120, 50, 7⟩ 9) ↔ (7 : Int) ≤ 9) :=
  c1_stockInv_amended "Burger" 120 50 ⟨"Burger", 120, 50, 7⟩ 3 9
    (by decide) (by decide) (by decide) (by decide)

end HotelCpp

namespace DbmsCpp

/-- C2 (counterexample): on the seeded store `processOrder(99, -5, 7)` names no inventory
row.  It returns true and commits: the inventory rows are as before (no debit) and one
sales row for item 99 is appended. -/
theorem c2_sale_row_without_debit :
    (processOrder ⟨true, true⟩ 99 (-5) 7 freshDatabase).result = true ∧
    (processOrder ⟨true, true⟩ 99 (-5) 7 freshDatabase).db.snapshot = none ∧
    (processOrder ⟨true, true⟩ 99 (-5) 7 freshDatabase).db.tables.inventory
      = freshDatabase.tables.inventory ∧
    (processOrder ⟨true, true⟩ 99 (-5) 7 freshDatabase).db.tables.sales
      = [⟨99, -5, 0, 7⟩] := by
  decide

/-- C2 (amended): `OrderManager::processOrder` is atomic for an item that has an inventory
row `r`, when the debited quantity `r.quantity - quantity` fits in an `int`.  From a
connection with no open transaction and a table whose ids are unique (`id` is the primary
key), whichever of the UPDATE and the INSERT the engine refuses, the call ends with no
transaction open and the tables are either exactly the tables before the call (result
false) or the tables with the row of `r` debited by `quantity` and one sales row appended
(result true, which happens exactly when the stock suffices and both statements are
accepted). -/
theorem c2_processOrder_atomic (f : Faults) (quantity userId : Int) (db : Database)
    (r : InventoryRow)
    (hopen : db.snapshot = none) (hkey : (db.tables.inventory.map InventoryRow.id).Nodup)
    (hr : r ∈ db.tables.inventory) (hfit : r.quantity - quantity ≤ HotelCpp.INT_MAX) :
    (processOrder f r.id quantity userId db).db.snapshot = none ∧
    (((processOrder f r.id quantity userId db).result = false ∧
        (processOrder f r.id quantity userId db).db.tables = db.tables) ∨
     ((processOrder f r.id quantity userId db).result = true ∧
        (processOrder f r.id quantity userId db).db.tables =
          { inventory := debitSpec db.tables.inventory r.id quantity,
            sales := db.tables.sales ++
              [⟨r.id, quantity, HotelCpp.wrapInt (r.price * quantity), userId⟩] })) ∧
    ((processOrder f r.id quantity userId db).result = true ↔
      (quantity ≤ r.quantity ∧ f.updateOk = true ∧ f.insertOk = true)) := by
  have hqr : getQuantity db r.id = r.quantity := getQuantity_of_mem db r hkey hr
  have hprice : (getItemById db r.id).price = r.price := by
    rw [getItemById_of_mem db r hkey hr]; rfl
  rw [processOrder_cases f r.id quantity userId db hopen]
  by_cases hq : getQuantity db r.id < quantity
  · rw [if_pos hq]
    refine ⟨hopen, Or.inl ⟨rfl, rfl⟩, ?_⟩
    constructor
    · intro h; cases h
    · intro h; rw [hqr] at hq; exact absurd h.1 (not_le.mpr hq)
  · rw [if_neg hq]
    have hle : quantity ≤ r.quantity := by rw [hqr] at hq; exact not_lt.mp hq
    by_cases hf : (f.updateOk && f.insertOk) = true
    · rw [if_pos hf]
      refine ⟨rfl, Or.inr ⟨rfl, ?_⟩, ?_⟩
      · show Tables.mk _ _ = Tables.mk _ _
        rw [setQuantityRows_wrap_eq_debitSpec db r quantity hkey hr hle hfit, hprice]
      · rw [Bool.and_eq_true] at hf
        exact ⟨fun _ => ⟨hle, hf.1, hf.2⟩, fun _ => rfl⟩
    · rw [if_neg hf]
      refine ⟨rfl, Or.inl ⟨rfl, rfl⟩, ?_⟩
      rw [Bool.and_eq_true] at hf
      constructor
      · intro h; cases h
      · intro h; exact absurd ⟨h.2.1, h.2.2⟩ hf

/-- Witness of C2 (amended): 3 x Burger on the seeded store with the INSERT refused. -/
theorem c2_processOrder_atomic_witness :
    (processOrder ⟨true, false⟩ (⟨3, "Burger", 120, 50, "food"⟩ : InventoryRow).id 3 7
        freshDatabase).db.snapshot = none ∧
    (((processOrder ⟨true, false⟩ (⟨3, "Burger", 120, 50, "food"⟩ : InventoryRow).id 3 7
          freshDatabase).result = false ∧
        (processOrder ⟨true, false⟩ (⟨3, "Burger", 120, 50, "food"⟩ : InventoryRow).id 3 7
          freshDatabase).db.tables = freshDatabase.tables) ∨
     ((processOrder ⟨true, false⟩ (⟨3, "Burger", 120, 50, "food"⟩ : InventoryRow).id 3 7
          freshDatabase).result = true ∧
        (processOrder ⟨true, false⟩ (⟨3, "Burger", 120, 50, "food"⟩ : InventoryRow).id 3 7
          freshDatabase).db.tables =
          { inventory := debitSpec freshDatabase.tables.inventory
              (⟨3, "Burger", 120, 50, "food"⟩ : InventoryRow).id 3,
            sales := freshDatabase.tables.sales ++
              [⟨(⟨3, "Burger", 120, 50, "food"⟩ : InventoryRow).id, 3,
                HotelCpp.wrapInt ((⟨3, "Burger", 120, 50, "food"⟩ : InventoryRow).price * 3),
                7⟩] })) ∧
    ((processOrder ⟨true, false⟩ (⟨3, "Burger", 120, 50, "food"⟩ : InventoryRow).id 3 7
        freshDatabase).result = true ↔
      ((3 : Int) ≤ (⟨3, "Burger", 120, 50, "food"⟩ : InventoryRow).quantity ∧
        (⟨true, false⟩ : Faults).updateOk = true ∧ (⟨true, false⟩ : Faults).insertOk = true)) :=
  c2_processOrder_atomic ⟨true, false⟩ 3 7 freshDatabase ⟨3, "Burger", 120, 50, "food"⟩
    rfl (by decide) (by decide) (by decide)

end DbmsCpp

namespace HotelCpp

/-- C4 (counterexample): one Room item, quantity 5, nothing sold, order of 2.  When the log
cannot be opened the in-memory inventory and the data file both change; when the data file
cannot be opened the in-memory inventory and the log file both change. -/
theorem c4_no_rollback :
    (processOrder ⟨"2024-01-01 10:00:00".data, false, true⟩ 1 2
        ⟨[⟨"Room", 1200, 5, 0⟩], some "Room,1200,5,0\n".data, some []⟩).1.inventory
      ≠ [⟨"Room", 1200, 5, 0⟩] ∧
    (processOrder ⟨"2024-01-01 10:00:00".data, false, true⟩ 1 2
        ⟨[⟨"Room", 1200, 5, 0⟩], some "Room,1200,5,0\n".data, some []⟩).1.dataFile
      ≠ some "Room,1200,5,0\n".data ∧
    (processOrder ⟨"2024-01-01 10:00:00".data, true, false⟩ 1 2
        ⟨[⟨"Room", 1200, 5, 0⟩], some "Room,1200,5,0\n".data, some []⟩).1.inventory
      ≠ [⟨"Room", 1200, 5, 0⟩] ∧
    (processOrder ⟨"2024-01-01 10:00:00".data, true, false⟩ 1 2
        ⟨[⟨"Room", 1200, 5, 0⟩], some "Room,1200,5,0\n".data, some []⟩).1.customerLogFile
      ≠ some [] := by
  decide

/-- C4 (amended): `Hotel::processOrder` has no rollback.  For a valid choice and an accepted
quantity, whatever fails to open: the in-memory inventory keeps the debit (`sold` of the
chosen item grows by `qty`, as an `int` sum, nothing else changes); the log file gets the
sale line when it opens and keeps its content when it does not; the data file is rewritten
with the debited inventory when it opens and keeps its content when it does not. -/
theorem c4_partial_failure_keeps_debit (env : Env) (choice qty : Int) (h : Hotel) (item : Item)
    (hlo : 1 ≤ choice) (hitem : h.inventory.get? (choice - 1).toNat = some item)
    (hq : qty ≤ item.getRemaining) :
    (processOrder env choice qty h).1.inventory =
      h.inventory.set (choice - 1).toNat { item with sold := wrapInt (item.sold + qty) } ∧
    (processOrder env choice qty h).1.customerLogFile =
      (if env.logOpens then
        some (h.customerLogFile.getD [] ++ logLine env.timeStr item.name qty item.price)
       else h.customerLogFile) ∧
    (processOrder env choice qty h).1.dataFile =
      (if env.dataOpens then
        some (renderInventory
          (h.inventory.set (choice - 1).toNat
            { item with sold := wrapInt (item.sold + qty) }))
       else h.dataFile) := by
  rw [processOrder_accepted env choice qty h item hlo hitem hq]
  unfold saveData logTransaction
  cases env.dataOpens <;> cases env.logOpens <;> exact ⟨rfl, rfl, rfl⟩

/-- Witness of C4 (amended): order of 2 rooms while the log file cannot be opened; the
inventory afterwards holds the Room item with 2 sold. -/
theorem c4_partial_failure_keeps_debit_witness :
    (processOrder ⟨"2024-01-01 10:00:00".data, false, true⟩ 1 2
        ⟨[⟨"Room", 1200, 5, 0⟩], none, none⟩).1.inventory =
      [(⟨"Room", 1200, 5, 0⟩ : Item)].set (1 - 1 : Int).toNat
        { (⟨"Room", 1200, 5, 0⟩ : Item) with
            sold := wrapInt ((⟨"Room", 1200, 5, 0⟩ : Item).sold + 2) } ∧
    (processOrder ⟨"2024-01-01 10:00:00".data, false, true⟩ 1 2
        ⟨[⟨"Room", 1200, 5, 0⟩], none, none⟩).1.customerLogFile =
      (if (⟨"2024-01-01 10:00:00".data, false, true⟩ : Env).logOpens then
        some ((none : Option (List Char)).getD [] ++
          logLine "2024-01-01 10:00:00".data "Room" 2 1200)
       else none) ∧
    (processOrder ⟨"2024-01-01 10:00:00".data, false, true⟩ 1 2
        ⟨[⟨"Room", 1200, 5, 0⟩], none, none⟩).1.dataFile =
      (if (⟨"2024-01-01 10:00:00".data, false, true⟩ : Env).dataOpens then
        some (renderInventory
          ([(⟨"Room", 1200, 5, 0⟩ : Item)].set (1 - 1 : Int).toNat
            { (⟨"Room", 1200, 5, 0⟩ : Item) with
                sold := wrapInt ((⟨"Room", 1200, 5, 0⟩ : Item).sold + 2) }))
       else none) :=
  c4_partial_failure_keeps_debit ⟨"2024-01-01 10:00:00".data, false, true⟩ 1 2
    ⟨[⟨"Room", 1200, 5, 0⟩], none, none⟩ ⟨"Room", 1200, 5, 0⟩ (by decide) rfl (by decide)

end HotelCpp

/-- C5: insufficient stock in both backends.  Flat file: for a valid choice and a quantity
above the remaining count of the chosen item, `Hotel::processOrder` reports that count and
the hotel (inventory, log file, data file) is unchanged.  Transactional: for a row of a
table with unique ids and a quantity above the stored quantity,
`OrderManager::processOrder` returns false, reports the stored quantity, and the connection
is unchanged: tables as before, no transaction opened, no statement issued. -/
theorem c5_insufficient_stock (env : HotelCpp.Env) (choice quant : Int) (h : HotelCpp.Hotel)
    (item : HotelCpp.Item) (f : DbmsCpp.Faults) (quantity userId : Int) (db : DbmsCpp.Database)
    (r : DbmsCpp.InventoryRow)
    (hlo : 1 ≤ choice) (hitem : h.inventory.get? (choice - 1).toNat = some item)
    (hq : item.getRemaining < quant)
    (hkey : (db.tables.inventory.map DbmsCpp.InventoryRow.id).Nodup)
    (hr : r ∈ db.tables.inventory) (hqty : r.quantity < quantity) :
    HotelCpp.processOrder env choice quant h
      = (h, HotelCpp.OrderReport.onlyRemaining item.getRemaining) ∧
    DbmsCpp.processOrder f r.id quantity userId db
      = { result := false, db := db, available := some r.quantity, billTotal := none } := by
  refine ⟨HotelCpp.processOrder_rejected env choice quant h item hlo hitem hq, ?_⟩
  have hlt : DbmsCpp.getQuantity db r.id < quantity := by
    rw [DbmsCpp.getQuantity_of_mem db r hkey hr]; exact hqty
  unfold DbmsCpp.processOrder
  simp only [if_pos hlt, DbmsCpp.getQuantity_of_mem db r hkey hr, if_pos hqty]

/-- Witness of C5: 2 rooms remain in either backend and 5 are ordered; 2 is reported and
nothing changes. -/
theorem c5_insufficient_stock_witness :
    HotelCpp.processOrder ⟨"2024-01-01 10:00:00".data, true, true⟩ 1 5
        ⟨[⟨"Room", 1200, 2, 0⟩], none, none⟩
      = (⟨[⟨"Room", 1200, 2, 0⟩], none, none⟩,
         HotelCpp.OrderReport.onlyRemaining (HotelCpp.Item.getRemaining ⟨"Room", 1200, 2, 0⟩)) ∧
    DbmsCpp.processOrder ⟨true, true⟩
        (⟨1, "Room", 1200, 2, "accommodation"⟩ : DbmsCpp.InventoryRow).id 5 7
        ⟨⟨[⟨1, "Room", 1200, 2, "accommodation"⟩], []⟩, none, []⟩
      = { result := false, db := ⟨⟨[⟨1, "Room", 1200, 2, "accommodation"⟩], []⟩, none, []⟩,
          available := some (⟨1, "Room", 1200, 2, "accommodation"⟩ : DbmsCpp.InventoryRow).quantity,
          billTotal := none } :=
  c5_insufficient_stock ⟨"2024-01-01 10:00:00".data, true, true⟩ 1 5
    ⟨[⟨"Room", 1200, 2, 0⟩], none, none⟩ ⟨"Room", 1200, 2, 0⟩ ⟨true, true⟩ 5 7
    ⟨⟨[⟨1, "Room", 1200, 2, "accommodation"⟩], []⟩, none, []⟩
    ⟨1, "Room", 1200, 2, "accommodation"⟩
    (by decide) rfl (by decide) (by decide) (by decide) (by decide)

namespace HotelCpp

/-- C6 (code at the failing input): one Room item, quantity 5, nothing sold, no files yet.
An order of 0 is accepted: a log line is written and the data file is written.  An order of
-3 is accepted: `sold` becomes -3, so 8 rooms remain, and the bill total is -3600. -/
theorem c6_nonpositive_quantity_accepted :
    processOrder ⟨"2024-01-01 10:00:00".data, true, true⟩ 1 0
        ⟨[⟨"Room", 1200, 5, 0⟩], none, none⟩
      = (⟨[⟨"Room", 1200, 5, 0⟩], some "Room,1200,5,0\n".data,
          some "2024-01-01 10:00:00 - Item: Room, Quantity: 0, Price: $1200, Total: $0\n".data⟩,
         OrderReport.bill 0 1200 0) ∧
    processOrder ⟨"2024-01-01 10:00:00".data, true, true⟩ 1 (-3)
        ⟨[⟨"Room", 1200, 5, 0⟩], none, none⟩
      = (⟨[⟨"Room", 1200, 5, -3⟩], some "Room,1200,5,-3\n".data,
          some "2024-01-01 10:00:00 - Item: Room, Quantity: -3, Price: $1200, Total: $-3600\n".data⟩,
         OrderReport.bill (-3) 1200 (-3600)) := by
  decide

end HotelCpp

namespace DbmsCpp

/-- C7 (counterexample): on the freshly seeded store `processOrder(1, 0, 7)` returns true
and appends a sales row with quantity 0. -/
theorem c7_processOrder_accepts_zero :
    (processOrder ⟨true, true⟩ 1 0 7 freshDatabase).result = true ∧
    (processOrder ⟨true, true⟩ 1 0 7 freshDatabase).db.tables.sales = [⟨1, 0, 0, 7⟩] ∧
    (processOrder ⟨true, true⟩ 1 0 7 freshDatabase).db.tables ≠ freshDatabase.tables := by
  decide

/-- C7 (amended): a quantity ≤ 0 is rejected by the caller: the purchase branch of
`HotelApp::processMenuChoice` does not call `processOrder` and leaves the connection as it
was (tables, transaction state and issued statements).  `OrderManager::processOrder` has no
sign check: from a connection with no open transaction it returns true exactly when
`quantity` is at most the stored quantity and both statements are accepted. -/
theorem c7_nonpositive_rejected_by_caller (f : Faults) (choice itemId quantity userId : Int)
    (db : Database) (hq : quantity ≤ 0) (hopen : db.snapshot = none) :
    (purchase f choice quantity userId db = (db, PurchaseReport.notAnItem) ∨
      purchase f choice quantity userId db = (db, PurchaseReport.invalidQuantity)) ∧
    ((processOrder f itemId quantity userId db).result = true ↔
      (quantity ≤ getQuantity db itemId ∧ f.updateOk = true ∧ f.insertOk = true)) := by
  refine ⟨purchase_nonpos f choice quantity userId db hq, ?_⟩
  rw [processOrder_cases f itemId quantity userId db hopen]
  by_cases hlt : getQuantity db itemId < quantity
  · rw [if_pos hlt]
    exact ⟨fun h => (by cases h), fun h => absurd h.1 (not_le.mpr hlt)⟩
  · rw [if_neg hlt]
    by_cases hf : (f.updateOk && f.insertOk) = true
    · rw [if_pos hf]
      rw [Bool.and_eq_true] at hf
      exact ⟨fun _ => ⟨not_lt.mp hlt, hf.1, hf.2⟩, fun _ => rfl⟩
    · rw [if_neg hf]
      rw [Bool.and_eq_true] at hf
      exact ⟨fun h => (by cases h), fun h => absurd ⟨h.2.1, h.2.2⟩ hf⟩

/-- Witness of C7 (amended): quantity 0 for menu choice 1 on the seeded store. -/
theorem c7_nonpositive_rejected_by_caller_witness :
    (purchase ⟨true, true⟩ 1 0 7 freshDatabase = (freshDatabase, PurchaseReport.notAnItem) ∨
      purchase ⟨true, true⟩ 1 0 7 freshDatabase
        = (freshDatabase, PurchaseReport.invalidQuantity)) ∧
    ((processOrder ⟨true, true⟩ 1 0 7 freshDatabase).result = true ↔
      ((0 : Int) ≤ getQuantity freshDatabase 1 ∧
        (⟨true, true⟩ : Faults).updateOk = true ∧ (⟨true, true⟩ : Faults).insertOk = true)) :=
  c7_nonpositive_rejected_by_caller ⟨true, true⟩ 1 1 0 7 freshDatabase (by decide) rfl

end DbmsCpp

namespace HotelCpp

/-- C9: flat-file round trip.  For a hotel whose inventory is not empty and in which every
item has `0 ≤ sold ≤ quantity`, `int` fields and a name without ',' and without newline,
`saveData` (file opened) followed by `loadData`, or by constructing a new `Hotel` on the
written file, gives back the same items in the same order, hence the same remaining
counts. -/
theorem c9_save_load_roundtrip (h : Hotel) (hne : h.inventory ≠ [])
    (hwf : ∀ it ∈ h.inventory, Item.StockInv it ∧ it.InIntRange ∧
      ',' ∉ it.name.data ∧ '\n' ∉ it.name.data) :
    (loadData (saveData true h)).inventory = h.inventory ∧
    (Hotel.new (saveData true h).dataFile (saveData true h).customerLogFile).inventory
      = h.inventory ∧
    (loadData (saveData true h)).inventory.map Item.getRemaining
      = h.inventory.map Item.getRemaining := by
  have hloop : loadLoop (getlines (renderInventory h.inventory)) [] = h.inventory := by
    rw [loadLoop_render h.inventory [] (fun it hit =>
      ⟨(hwf it hit).1, (hwf it hit).2.1,
        fun c hc heq => (hwf it hit).2.2.1 (heq ▸ hc),
        fun c hc heq => (hwf it hit).2.2.2 (heq ▸ hc)⟩)]
    rfl
  have hload : loadInventory (renderInventory h.inventory) = h.inventory := by
    unfold loadInventory
    rw [hloop]
    cases hi : h.inventory with
    | nil => exact absurd hi hne
    | cons a t => rfl
  have h1 : (loadData (saveData true h)).inventory = h.inventory := by
    show loadInventory (renderInventory h.inventory) = h.inventory
    exact hload
  refine ⟨h1, ?_, by rw [h1]⟩
  show loadInventory (renderInventory h.inventory) = h.inventory
  exact hload

/-- Witness of C9: Room (5 stocked, 3 sold) and Chicken Roll (50 stocked, none sold). -/
theorem c9_save_load_roundtrip_witness :
    (loadData (saveData true
        ⟨[⟨"Room", 1200, 5, 3⟩, ⟨"Chicken Roll", 150, 50, 0⟩], none, none⟩)).inventory
      = [⟨"Room", 1200, 5, 3⟩, ⟨"Chicken Roll", 150, 50, 0⟩] ∧
    (Hotel.new
        (saveData true
          ⟨[⟨"Room", 1200, 5, 3⟩, ⟨"Chicken Roll", 150, 50, 0⟩], none, none⟩).dataFile
        (saveData true
          ⟨[⟨"Room", 1200, 5, 3⟩, ⟨"Chicken Roll", 150, 50, 0⟩], none, none⟩).customerLogFile
      ).inventory
      = [⟨"Room", 1200, 5, 3⟩, ⟨"Chicken Roll", 150, 50, 0⟩] ∧
    (loadData (saveData true
        ⟨[⟨"Room", 1200, 5, 3⟩, ⟨"Chicken Roll", 150, 50, 0⟩], none, none⟩)).inventory.map
        Item.getRemaining
      = [(⟨"Room", 1200, 5, 3⟩ : Item), ⟨"Chicken Roll", 150, 50, 0⟩].map Item.getRemaining :=
  c9_save_load_roundtrip ⟨[⟨"Room", 1200, 5, 3⟩, ⟨"Chicken Roll", 150, 50, 0⟩], none, none⟩
    (by decide) (by decide)

/-- C10 (code at the failing input): for a data file whose only line has a price that is
not a number, and for an empty data file, `loadData` leaves Room/1200, Pasta/80,
Burger/120, Noodles/50, Shake/120, Chicken Roll/150, which differs from the inventory the
constructor builds without a data file (Pasta/250, Noodles/140). -/
theorem c10_fallback_catalog_differs :
    (Hotel.new (some "Room,abc,1,0\n".data) none).inventory =
      [⟨"Room", 1200, 0, 0⟩, ⟨"Pasta", 80, 0, 0⟩, ⟨"Burger", 120, 0, 0⟩,
       ⟨"Noodles", 50, 0, 0⟩, ⟨"Shake", 120, 0, 0⟩, ⟨"Chicken Roll", 150, 0, 0⟩] ∧
    (Hotel.new (some []) none).inventory =
      [⟨"Room", 1200, 0, 0⟩, ⟨"Pasta", 80, 0, 0⟩, ⟨"Burger", 120, 0, 0⟩,
       ⟨"Noodles", 50, 0, 0⟩, ⟨"Shake", 120, 0, 0⟩, ⟨"Chicken Roll", 150, 0, 0⟩] ∧
    (Hotel.new none none).inventory =
      [⟨"Room", 1200, 0, 0⟩, ⟨"Pasta", 250, 0, 0⟩, ⟨"Burger", 120, 0, 0⟩,
       ⟨"Noodles", 140, 0, 0⟩, ⟨"Shake", 120, 0, 0⟩, ⟨"Chicken Roll", 150, 0, 0⟩] ∧
    (Hotel.new (some "Room,abc,1,0\n".data) none).inventory ≠ (Hotel.new none none).inventory := by
  decide

end HotelCpp

/-! # Further lemmas about the flat-file backend -/

namespace HotelCpp

theorem parseLine_not_four (l : List Char) (h : (splitCommas l).length ≠ 4) :
    parseLine l = Except.ok none := by
  unfold parseLine
  split
  · rename_i heq
    rw [heq] at h
    exact absurd rfl h
  · rfl

theorem loadLoop_filter_four (lines : List (List Char)) (acc : List Item) :
    loadLoop (lines.filter (fun l => decide ((splitCommas l).length = 4))) acc
      = loadLoop lines acc := by
  induction lines generalizing acc with
  | nil => rfl
  | cons l rest ih =>
    by_cases h4 : (splitCommas l).length = 4
    · rw [List.filter_cons_of_pos (by simpa using h4)]
      unfold loadLoop
      cases parseLine l with
      | error e => rfl
      | ok o =>
        cases o with
        | none => exact ih acc
        | some it => exact ih (acc ++ [it])
    · rw [List.filter_cons_of_neg (by simpa using h4), ih acc]
      conv => rhs; unfold loadLoop
      rw [parseLine_not_four l h4]

theorem loadLoop_throw (lines : List (List Char)) (acc : List Item) (l : List Char)
    (e : StoiError) (hl : l ∈ lines) (he : parseLine l = Except.error e) :
    loadLoop lines acc = [] := by
  induction lines generalizing acc with
  | nil => cases hl
  | cons a rest ih =>
    unfold loadLoop
    rcases List.mem_cons.mp hl with rfl | hmem
    · rw [he]
    · cases parseLine a with
      | error e' => rfl
      | ok o =>
        cases o with
        | none => exact ih acc hmem
        | some it => exact ih (acc ++ [it]) hmem

theorem parseLine_throws (l t0 t1 t2 t3 : List Char) (hsplit : splitCommas l = [t0, t1, t2, t3])
    (hthrow : (stoi t1).toOption = none ∨ (stoi t2).toOption = none ∨
      (stoi t3).toOption = none) :
    ∃ e, parseLine l = Except.error e := by
  unfold parseLine
  rw [hsplit]
  simp only []
  cases h1 : stoi t1 with
  | error e => exact ⟨e, rfl⟩
  | ok p =>
    cases h2 : stoi t2 with
    | error e => exact ⟨e, rfl⟩
    | ok q =>
      cases h3 : stoi t3 with
      | error e => exact ⟨e, rfl⟩
      | ok s =>
        rw [h1, h2, h3] at hthrow
        simp [Except.toOption] at hthrow

theorem saveData_inventory (opens : Bool) (h : Hotel) :
    (saveData opens h).inventory = h.inventory := by
  unfold saveData
  cases opens <;> rfl

theorem archiveLogFile_inventory (env : RolloverEnv) (h : Hotel)
    (archive : Option (List Char)) :
    (archiveLogFile env h archive).1.inventory = h.inventory := by
  unfold archiveLogFile
  cases env.archiveOpens <;> cases env.logReadable <;> cases h.customerLogFile <;>
    cases env.clearOpens <;> rfl

theorem setQuantities_get? (qtys : Nat → Int) (k : Nat) (l : List Item) (i : Nat) :
    (setQuantities qtys k l).get? i
      = (l.get? i).map (fun it => Item.setQuantity it (qtys (k + i))) := by
  induction l generalizing k i with
  | nil => simp [setQuantities]
  | cons a t ih =>
    cases i with
    | zero => simp [setQuantities]
    | succ j =>
      simp only [setQuantities, List.get?_cons_succ]
      rw [ih (k + 1) j]
      have : k + 1 + j = k + (j + 1) := by omega
      rw [this]

theorem setQuantities_length (qtys : Nat → Int) (k : Nat) (l : List Item) :
    (setQuantities qtys k l).length = l.length := by
  induction l generalizing k with
  | nil => rfl
  | cons a t ih => simp [setQuantities, ih]

theorem displayLoop_spec (inv : List Item) (acc : List SalesLine × Int)
    (hacc : wrapInt acc.2 = acc.2) :
    inv.foldl
      (fun (acc : List SalesLine × Int) (item : Item) =>
        (acc.1 ++ [{ name := item.getName, had := item.getQuantity, sold := item.getSold,
                     remaining := item.getRemaining, collection := item.getTotalSales }],
         wrapInt (acc.2 + item.getTotalSales))) acc
      = (acc.1 ++ inv.map (fun it =>
            ({ name := it.name, had := it.quantity, sold := it.sold,
               remaining := wrapInt (it.quantity - it.sold),
               collection := wrapInt (it.sold * it.price) } : SalesLine)),
         wrapInt (acc.2 + (inv.map (fun it => it.sold * it.price)).sum)) := by
  induction inv generalizing acc with
  | nil => simp [hacc]
  | cons a t ih =>
    rw [List.foldl_cons, ih _ (by simp only [wrapInt]; omega)]
    simp only [Item.getName, Item.getQuantity, Item.getSold, Item.getRemaining,
      Item.getTotalSales, List.map_cons, List.sum_cons, List.append_assoc,
      List.singleton_append, Prod.mk.injEq, true_and]
    generalize (List.map (fun it => it.sold * it.price) t).sum = rest
    generalize a.sold * a.price = prod
    unfold wrapInt
    omega

theorem replaySold_from (n : Nat) (name : String) (price quantity sold : Int)
    (hq : InInt quantity) (h0 : 0 ≤ sold) (hle : sold ≤ max quantity 0) :
    replaySold n ⟨name, price, quantity, sold⟩
      = ⟨name, price, quantity, max sold (min (sold + n) quantity)⟩ := by
  obtain ⟨hq1, hq2⟩ := hq
  unfold INT_MIN at hq1
  unfold INT_MAX at hq2
  induction n generalizing sold with
  | zero =>
    simp only [replaySold]
    congr 1
    push_cast
    omega
  | succ n ih =>
    have hrem : wrapInt (quantity - sold) = quantity - sold := by
      unfold wrapInt; omega
    unfold replaySold
    simp only [Item.order, Item.getRemaining, hrem]
    by_cases h : quantity - sold ≥ 1
    · have hs : wrapInt (sold + 1) = sold + 1 := by unfold wrapInt; omega
      rw [if_pos h]
      simp only [hs]
      rw [ih (sold + 1) (by omega) (by omega)]
      congr 1
      push_cast
      omega
    · rw [if_neg h]
      simp only []
      rw [ih sold h0 hle]
      congr 1
      push_cast
      omega

theorem stoi_ok_inInt (t : List Char) (v : Int) (h : stoi t = Except.ok v) : InInt v := by
  unfold stoi at h
  simp only [] at h
  split at h
  · cases h
  · by_cases hs : (stoiSign (List.dropWhile isSpace t)).1 = true
    · simp only [if_pos hs] at h
      split at h
      · cases h
      · rename_i hr
        injection h with hv
        rw [← hv]
        exact ⟨not_lt.mp (fun hlt => hr (Or.inl hlt)), not_lt.mp (fun hgt => hr (Or.inr hgt))⟩
    · simp only [if_neg hs] at h
      split at h
      · cases h
      · rename_i hr
        injection h with hv
        rw [← hv]
        exact ⟨not_lt.mp (fun hlt => hr (Or.inl hlt)), not_lt.mp (fun hgt => hr (Or.inr hgt))⟩

theorem replayLoop_spec (fuel : Nat) (i sold : Int) (item : Item)
    (h : (sold - i).toNat < fuel) :
    replayLoop fuel i sold item
      = some ((sold - i).toNat, replaySold (sold - i).toNat item) := by
  induction fuel generalizing i item with
  | zero => omega
  | succ fuel ih =>
    unfold replayLoop
    by_cases hlt : i < sold
    · rw [if_pos hlt, ih (i + 1) (item.order 1).2 (by omega)]
      have hn : (sold - i).toNat = (sold - (i + 1)).toNat + 1 := by omega
      rw [hn]
      rfl
    · rw [if_neg hlt]
      have hn : (sold - i).toNat = 0 := by omega
      rw [hn]
      rfl

end HotelCpp

/-! # Further lemmas about the transactional backend -/

namespace DbmsCpp

theorem debitSpec_ids (rows : List InventoryRow) (itemId quantity : Int) :
    (debitSpec rows itemId quantity).map InventoryRow.id = rows.map InventoryRow.id := by
  unfold debitSpec
  rw [List.map_map]
  apply List.map_congr_left
  intro r _
  by_cases h : r.id = itemId
  · simp [h]
  · simp [h]

theorem salesQuantity_append (db : Database) (row : SalesRow) (itemId : Int) (inv : List InventoryRow)
    (snap : Option Tables) (issued : List Query) :
    salesQuantity ⟨⟨inv, db.tables.sales ++ [row]⟩, snap, issued⟩ itemId
      = salesQuantity db itemId + (if row.item_id = itemId then row.quantity else 0) := by
  unfold salesQuantity
  simp only [List.filter_append, List.map_append, List.sum_append]
  by_cases h : row.item_id = itemId
  · simp [h]
  · simp [h]

theorem processOrder_available (f : Faults) (itemId quantity userId : Int) (db : Database)
    (hopen : db.snapshot = none) :
    (processOrder f itemId quantity userId db).available
      = (if getQuantity db itemId < quantity then some (getQuantity db itemId) else none) := by
  rw [processOrder_cases f itemId quantity userId db hopen]
  by_cases hlt : getQuantity db itemId < quantity
  · rw [if_pos hlt, if_pos hlt]
  · rw [if_neg hlt, if_neg hlt]
    by_cases hf : (f.updateOk && f.insertOk) = true
    · rw [if_pos hf]
    · rw [if_neg hf]

theorem processOrder_result (f : Faults) (itemId quantity userId : Int) (db : Database)
    (hopen : db.snapshot = none) :
    (processOrder f itemId quantity userId db).result
      = (decide (quantity ≤ getQuantity db itemId) && (f.updateOk && f.insertOk)) := by
  rw [processOrder_cases f itemId quantity userId db hopen]
  by_cases hlt : getQuantity db itemId < quantity
  · rw [if_pos hlt]
    have : decide (quantity ≤ getQuantity db itemId) = false :=
      decide_eq_false (not_le.mpr hlt)
    rw [this]
    rfl
  · rw [if_neg hlt]
    have : decide (quantity ≤ getQuantity db itemId) = true :=
      decide_eq_true (not_lt.mp hlt)
    rw [this, Bool.true_and]
    by_cases hf : (f.updateOk && f.insertOk) = true
    · rw [if_pos hf, hf]
    · rw [if_neg hf]
      rw [Bool.not_eq_true] at hf
      rw [hf]

theorem findQuoteAux_spec (rest : List Char) (i : Nat) :
    (findQuoteAux rest i = none ∧ escapeSpec rest = rest) ∨
    ∃ a b, rest = a ++ quote :: b ∧ escapeSpec a = a ∧
      findQuoteAux rest i = some (i + a.length) := by
  induction rest generalizing i with
  | nil => exact Or.inl ⟨rfl, rfl⟩
  | cons c cs ih =>
    by_cases hc : c = quote
    · refine Or.inr ⟨[], cs, by rw [hc]; rfl, rfl, ?_⟩
      simp [findQuoteAux, hc]
    · rcases ih (i + 1) with ⟨hnone, hesc⟩ | ⟨a, b, hab, ha, hfind⟩
      · refine Or.inl ⟨?_, ?_⟩
        · simp [findQuoteAux, hc, hnone]
        · simp [escapeSpec, hc, hesc]
      · refine Or.inr ⟨c :: a, b, by rw [hab]; rfl, ?_, ?_⟩
        · simp [escapeSpec, hc, ha]
        · simp only [findQuoteAux, if_neg hc, hfind, List.length_cons]
          congr 1
          omega

theorem escapeSpec_append_quote (a b : List Char) (ha : escapeSpec a = a) :
    escapeSpec (a ++ quote :: b) = a ++ quote :: quote :: escapeSpec b := by
  induction a with
  | nil => simp [escapeSpec]
  | cons c cs ih =>
    by_cases hc : c = quote
    · exfalso
      rw [hc] at ha
      simp only [escapeSpec, if_true] at ha
      have hlen := congrArg List.length ha
      simp only [List.length_cons] at hlen
      have hge : cs.length ≤ (escapeSpec cs).length := by
        clear ih ha hlen
        induction cs with
        | nil => simp [escapeSpec]
        | cons d ds ihd =>
          simp only [escapeSpec]
          split <;> simp only [List.length_cons] <;> omega
      omega
    · simp only [escapeSpec, if_neg hc, List.cons.injEq, true_and] at ha
      show escapeSpec (c :: (cs ++ quote :: b)) = c :: (cs ++ quote :: quote :: escapeSpec b)
      rw [escapeSpec, if_neg hc, ih ha]

theorem sqlEscapeLoop_spec (fuel : Nat) (pre rest : List Char)
    (h : rest.count quote < fuel) :
    sqlEscapeLoop fuel (pre ++ rest) pre.length = some (pre ++ escapeSpec rest) := by
  induction fuel generalizing pre rest with
  | zero => omega
  | succ fuel ih =>
    unfold sqlEscapeLoop
    have hfind : findQuote (pre ++ rest) pre.length = findQuoteAux rest pre.length := by
      unfold findQuote
      rw [List.drop_left]
    rw [hfind]
    rcases findQuoteAux_spec rest pre.length with ⟨hnone, hesc⟩ | ⟨a, b, hab, ha, hsome⟩
    · rw [hnone, hesc]
    · rw [hsome]
      simp only []
      have hrep : replaceQuote (pre ++ rest) (pre.length + a.length)
          = (pre ++ a ++ [quote, quote]) ++ b := by
        unfold replaceQuote
        rw [hab]
        have h1 : pre ++ (a ++ quote :: b) = (pre ++ a) ++ quote :: b := by simp
        have hl : pre.length + a.length = (pre ++ a).length := by simp
        rw [h1, hl, List.take_left]
        have h2 : (pre ++ a) ++ quote :: b = (pre ++ a ++ [quote]) ++ b := by simp
        have hl2 : (pre ++ a).length + 1 = (pre ++ a ++ [quote]).length := by
          simp only [List.length_append, List.length_singleton]
        rw [h2, hl2, List.drop_left]
        simp
      have hpos : pre.length + a.length + 2 = (pre ++ a ++ [quote, quote]).length := by
        simp only [List.length_append, List.length_cons, List.length_nil]
      have hcount : b.count quote < fuel := by
        rw [hab] at h
        simp only [List.count_append, List.count_cons_self] at h
        omega
      rw [hrep, hpos, ih (pre ++ a ++ [quote, quote]) b hcount, hab,
        escapeSpec_append_quote a b ha]
      simp

theorem escapeSpec_length (s : List Char) :
    (escapeSpec s).length = s.length + s.count quote := by
  induction s with
  | nil => rfl
  | cons c cs ih =>
    by_cases hc : c = quote
    · subst hc
      simp only [escapeSpec, if_true, List.length_cons, ih, List.count_cons_self]
      omega
    · have hne : (c == quote) = false := by simpa using hc
      simp only [escapeSpec, if_neg hc, List.length_cons, ih, List.count_cons, hne]
      simp only [Bool.false_eq_true, if_false]
      omega

theorem unescapeSpec_cons_ne (c : Char) (l : List Char) (hc : c ≠ quote) :
    unescapeSpec (c :: l) = c :: unescapeSpec l := by
  cases l with
  | nil => rfl
  | cons d ds =>
    rw [unescapeSpec]
    have : ¬ (c = quote ∧ d = quote) := fun h => hc h.1
    rw [if_neg this]

theorem unescapeSpec_escapeSpec (s : List Char) : unescapeSpec (escapeSpec s) = s := by
  induction s with
  | nil => rfl
  | cons c cs ih =>
    by_cases hc : c = quote
    · subst hc
      simp only [escapeSpec, if_true]
      rw [unescapeSpec, if_pos ⟨rfl, rfl⟩, ih]
    · simp only [escapeSpec, if_neg hc]
      rw [unescapeSpec_cons_ne c _ hc, ih]

theorem escapeSpec_leading (s : List Char) :
    ((escapeSpec s).takeWhile (fun c => decide (c = quote))).length
      = 2 * (s.takeWhile (fun c => decide (c = quote))).length := by
  induction s with
  | nil => rfl
  | cons c cs ih =>
    by_cases hc : c = quote
    · subst hc
      simp only [escapeSpec, if_true, List.takeWhile_cons, decide_True, List.length_cons, ih]
      omega
    · simp [escapeSpec, hc, List.takeWhile_cons]

theorem escapeSpec_suffix (s pre rest : List Char) (h : escapeSpec s = pre ++ rest)
    (hpre : pre.getLast? ≠ some quote) : ∃ s', rest = escapeSpec s' := by
  induction s generalizing pre with
  | nil =>
    have : rest = [] := by
      simp only [escapeSpec] at h
      exact (List.append_eq_nil.mp h.symm).2
    exact ⟨[], this⟩
  | cons c cs ih =>
    cases pre with
    | nil => exact ⟨c :: cs, h.symm⟩
    | cons p ps =>
      by_cases hc : c = quote
      · subst hc
        simp only [escapeSpec, if_true, List.cons_append, List.cons.injEq] at h
        obtain ⟨hp, h⟩ := h
        cases ps with
        | nil =>
          exfalso
          apply hpre
          rw [← hp]
          rfl
        | cons p2 ps2 =>
          simp only [List.cons_append, List.cons.injEq] at h
          obtain ⟨hp2, h⟩ := h
          apply ih ps2 h
          cases ps2 with
          | nil => simp
          | cons p3 ps3 =>
            intro hl
            apply hpre
            simpa [List.getLast?_cons_cons] using hl
      · simp only [escapeSpec, if_neg hc, List.cons_append, List.cons.injEq] at h
        obtain ⟨hp, h⟩ := h
        apply ih ps h
        cases ps with
        | nil => simp
        | cons p2 ps2 =>
          intro hl
          apply hpre
          simpa [List.getLast?_cons_cons] using hl

theorem leading_replicate (n : Nat) (post : List Char) (hpost : post.head? ≠ some quote) :
    ((List.replicate n quote ++ post).takeWhile (fun c => decide (c = quote))).length = n := by
  induction n with
  | zero =>
    cases post with
    | nil => rfl
    | cons d ds =>
      have hd : d ≠ quote := fun hq => hpost (by rw [hq]; rfl)
      simp [List.takeWhile_cons, hd]
  | succ n ih =>
    simp only [List.replicate_succ, List.cons_append, List.takeWhile_cons, decide_True,
      if_true, List.length_cons, ih]

theorem escapeSpec_even_runs (s pre post : List Char) (n : Nat)
    (h : escapeSpec s = pre ++ (List.replicate n quote ++ post))
    (hpre : pre.getLast? ≠ some quote) (hpost : post.head? ≠ some quote) : Even n := by
  obtain ⟨s', hs'⟩ := escapeSpec_suffix s pre _ h hpre
  have h1 := leading_replicate n post hpost
  rw [hs', escapeSpec_leading] at h1
  exact ⟨(s'.takeWhile (fun c => decide (c = quote))).length, by omega⟩

end DbmsCpp

/-! # The claims, continued -/

namespace HotelCpp

/-- C11 (counterexample): a data file whose second line has one field, and a data file
whose price field is "12abc".  Both contain a malformed record, yet `loadData` keeps the
Room item read from the file instead of falling back. -/
theorem c11_malformed_line_kept :
    loadInventory "Room,1200,5,3\nfoo\n".data = [⟨"Room", 1200, 5, 3⟩] ∧
    loadInventory "Room,12abc,5,3\n".data = [⟨"Room", 12, 5, 3⟩] := by
  decide

/-- C11 (amended): a line whose field count is not 4 is skipped and has no effect on the
items loaded from the other lines.  When some four-field line of the file has a price,
quantity or sold field on which `std::stoi` throws, everything read from the file is
discarded and `loadData` leaves the inventory it also leaves for an empty data file. -/
theorem c11_malformed_records (content l t0 t1 t2 t3 : List Char)
    (hl : l ∈ getlines content) (hsplit : splitCommas l = [t0, t1, t2, t3])
    (hthrow : (stoi t1).toOption = none ∨ (stoi t2).toOption = none ∨
      (stoi t3).toOption = none) :
    loadLoop (getlines content) [] = [] ∧
    loadInventory content = loadInventory [] ∧
    (∀ (lines : List (List Char)) (acc : List Item),
      loadLoop (lines.filter (fun x => decide ((splitCommas x).length = 4))) acc
        = loadLoop lines acc) := by
  obtain ⟨e, he⟩ := parseLine_throws l t0 t1 t2 t3 hsplit hthrow
  have hloop := loadLoop_throw (getlines content) [] l e hl he
  refine ⟨hloop, ?_, loadLoop_filter_four⟩
  unfold loadInventory
  rw [hloop]
  rfl

/-- Witness of C11 (amended): the second line has the price "x". -/
theorem c11_malformed_records_witness :
    loadLoop (getlines "Room,1200,5,3\nPasta,x,1,1\n".data) [] = [] ∧
    loadInventory "Room,1200,5,3\nPasta,x,1,1\n".data = loadInventory [] ∧
    (∀ (lines : List (List Char)) (acc : List Item),
      loadLoop (lines.filter (fun x => decide ((splitCommas x).length = 4))) acc
        = loadLoop lines acc) :=
  c11_malformed_records "Room,1200,5,3\nPasta,x,1,1\n".data "Pasta,x,1,1".data
    "Pasta".data "x".data "1".data "1".data (by decide) (by decide) (Or.inl (by decide))

/-- C12: `Hotel::resetDailySales` leaves the inventory as it is unless the character read
is 'y' or 'Y'; when confirmed, every item keeps its place, name, price and quantity and has
`sold = 0`, so its remaining count is its quantity (the quantities being `int` values).
This holds whichever files open. -/
theorem c12_resetDailySales_inventory (env : RolloverEnv) (choice : Char) (h : Hotel)
    (archive : Option (List Char)) :
    (resetDailySales env choice h archive).1.inventory =
      (if choice = 'y' ∨ choice = 'Y' then
        h.inventory.map (fun it => ({ name := it.name, price := it.price,
                                      quantity := it.quantity, sold := 0 } : Item))
       else h.inventory) ∧
    (resetDailySales env choice h archive).1.inventory.length = h.inventory.length ∧
    ((∀ it ∈ h.inventory, it.InIntRange) →
      (resetDailySales env 'y' h archive).1.inventory.map Item.getRemaining
        = h.inventory.map Item.getQuantity) ∧
    ((∀ it ∈ h.inventory, it.InIntRange) →
      (resetDailySales env 'Y' h archive).1.inventory.map Item.getRemaining
        = h.inventory.map Item.getQuantity) := by
  have hyes : ∀ c : Char, (c = 'y' ∨ c = 'Y') →
      (resetDailySales env c h archive).1.inventory = h.inventory.map Item.resetSales := by
    intro c hc
    unfold resetDailySales
    rw [if_pos hc]
    simp only []
    rw [archiveLogFile_inventory, saveData_inventory]
  have hrem : (∀ it ∈ h.inventory, it.InIntRange) →
      (h.inventory.map Item.resetSales).map Item.getRemaining
        = h.inventory.map Item.getQuantity := by
    intro hrange
    rw [List.map_map]
    apply List.map_congr_left
    intro it hit
    obtain ⟨_, ⟨hq1, hq2⟩, _⟩ := hrange it hit
    show wrapInt (it.quantity - 0) = it.quantity
    rw [sub_zero]
    exact wrapInt_of_inInt _ hq1 hq2
  refine ⟨?_, ?_, ?_, ?_⟩
  · by_cases hc : choice = 'y' ∨ choice = 'Y'
    · rw [if_pos hc, hyes choice hc]
      rfl
    · rw [if_neg hc]
      unfold resetDailySales
      rw [if_neg hc]
  · by_cases hc : choice = 'y' ∨ choice = 'Y'
    · rw [hyes choice hc, List.length_map]
    · unfold resetDailySales
      rw [if_neg hc]
  · intro hrange
    rw [hyes 'y' (Or.inl rfl), hrem hrange]
  · intro hrange
    rw [hyes 'Y' (Or.inr rfl), hrem hrange]

/-- Witness of C12: a confirmed reset of a hotel holding a Burger item with 50 stocked and
7 sold; the fields are `int` values and the remaining count afterwards is 50. -/
theorem c12_resetDailySales_inventory_witness :
    (∀ it ∈ (⟨[⟨"Burger", 120, 50, 7⟩], none, none⟩ : Hotel).inventory, it.InIntRange) ∧
    (resetDailySales ⟨true, true, true, true⟩ 'y' ⟨[⟨"Burger", 120, 50, 7⟩], none, none⟩
        none).1.inventory.map Item.getRemaining
      = (⟨[⟨"Burger", 120, 50, 7⟩], none, none⟩ : Hotel).inventory.map Item.getQuantity :=
  ⟨by decide,
    (c12_resetDailySales_inventory ⟨true, true, true, true⟩ 'y'
      ⟨[⟨"Burger", 120, 50, 7⟩], none, none⟩ none).2.2.1 (by decide)⟩

/-- C13 (counterexample): a log holding one sale record, no archive of the day yet, every
file opening.  After the confirmed rollover the active log is empty; the record is in the
archive only. -/
theorem c13_rollover_clears_log :
    (resetDailySales ⟨true, true, true, true⟩ 'y'
        ⟨[⟨"Room", 1200, 5, 2⟩], some "Room,1200,5,2\n".data,
          some "2024-01-01 10:00:00 - Item: Room, Quantity: 2, Price: $1200, Total: $2400\n".data⟩
        none).1.customerLogFile = some [] ∧
    (resetDailySales ⟨true, true, true, true⟩ 'y'
        ⟨[⟨"Room", 1200, 5, 2⟩], some "Room,1200,5,2\n".data,
          some "2024-01-01 10:00:00 - Item: Room, Quantity: 2, Price: $1200, Total: $2400\n".data⟩
        none).2
      = some "2024-01-01 10:00:00 - Item: Room, Quantity: 2, Price: $1200, Total: $2400\n".data := by
  decide

/-- C13 (amended): a confirmed rollover moves the sale records, it does not keep them in
the active log.  For a log file with content `log` and no archive file of the day yet: when
the log opens for reading and the archive for writing, the archive holds exactly `log`
afterwards and the active log is emptied (it keeps `log` only if it cannot be reopened for
truncation); when either of the two does not open, the active log keeps `log` and the
archive holds no record (it is left empty if it opened, absent if it did not).  The sold
counters are cleared either way. -/
theorem c13_rollover_moves_log (env : RolloverEnv) (choice : Char) (h : Hotel)
    (log : List Char)
    (hconf : choice = 'y' ∨ choice = 'Y') (hlog : h.customerLogFile = some log) :
    (resetDailySales env choice h none).2
      = (if env.archiveOpens then (if env.logReadable then some log else some []) else none) ∧
    (resetDailySales env choice h none).1.customerLogFile
      = (if env.logReadable && env.archiveOpens && env.clearOpens then some []
         else some log) ∧
    (resetDailySales env choice h none).1.inventory
      = h.inventory.map Item.resetSales := by
  obtain ⟨inventory, dataFile, customerLogFile⟩ := h
  simp only at hlog
  subst hlog
  unfold resetDailySales
  rw [if_pos hconf]
  unfold archiveLogFile saveData
  cases env.dataOpens <;> cases env.logReadable <;> cases env.archiveOpens <;>
    cases env.clearOpens <;> exact ⟨rfl, rfl, rfl⟩

/-- Witness of C13 (amended): a log with two lines, every file opening. -/
theorem c13_rollover_moves_log_witness :
    (resetDailySales ⟨true, true, true, true⟩ 'Y'
        ⟨[⟨"Room", 1200, 5, 2⟩], none, some "sale 1\nsale 2\n".data⟩ none).2
      = (if (⟨true, true, true, true⟩ : RolloverEnv).archiveOpens then
          (if (⟨true, true, true, true⟩ : RolloverEnv).logReadable
            then some "sale 1\nsale 2\n".data else some [])
         else none) ∧
    (resetDailySales ⟨true, true, true, true⟩ 'Y'
        ⟨[⟨"Room", 1200, 5, 2⟩], none, some "sale 1\nsale 2\n".data⟩
        none).1.customerLogFile
      = (if (⟨true, true, true, true⟩ : RolloverEnv).logReadable &&
            (⟨true, true, true, true⟩ : RolloverEnv).archiveOpens &&
            (⟨true, true, true, true⟩ : RolloverEnv).clearOpens then some []
         else some "sale 1\nsale 2\n".data) ∧
    (resetDailySales ⟨true, true, true, true⟩ 'Y'
        ⟨[⟨"Room", 1200, 5, 2⟩], none, some "sale 1\nsale 2\n".data⟩
        none).1.inventory
      = [(⟨"Room", 1200, 5, 2⟩ : Item)].map Item.resetSales :=
  c13_rollover_moves_log ⟨true, true, true, true⟩ 'Y'
    ⟨[⟨"Room", 1200, 5, 2⟩], none, some "sale 1\nsale 2\n".data⟩
    "sale 1\nsale 2\n".data (Or.inr rfl) rfl

/-- C14 (counterexample): a Room item with 1 sold; `setQuantity(-2147483648)` is accepted
with `q < sold`, the exact `q - sold` is -2147483649, which is no `int`, and
`getRemaining()` afterwards is 2147483647, not a negative number. -/
theorem c14_setQuantity_remaining_wraps :
    (0 : Int) < (⟨"Room", 1200, 5, 1⟩ : Item).sold ∧
    (-2147483648 : Int) < (⟨"Room", 1200, 5, 1⟩ : Item).sold ∧
    (Item.setQuantity ⟨"Room", 1200, 5, 1⟩ (-2147483648)).quantity = -2147483648 ∧
    (Item.setQuantity ⟨"Room", 1200, 5, 1⟩ (-2147483648)).getRemaining = 2147483647 ∧
    ¬ (Item.setQuantity ⟨"Room", 1200, 5, 1⟩ (-2147483648)).getRemaining < 0 := by
  decide

/-- C14 (amended): `Item::setQuantity(q)` sets `quantity` to `q` and keeps name, price and
sold, and is never rejected; the remaining count afterwards is the `int` result of
`q - sold`.  When `q - sold` fits in an `int` the remaining count is `q - sold`, so it is
negative exactly when `q < sold`.  `Hotel::initializeInventory`, its only caller, applies
it to every item with the entered value, whatever that value is. -/
theorem c14_setQuantity_unguarded (it : Item) (q : Int) (qtys : Nat → Int) (opens : Bool)
    (h : Hotel) (i : Nat) :
    Item.setQuantity it q
      = { name := it.name, price := it.price, quantity := q, sold := it.sold } ∧
    (Item.setQuantity it q).getRemaining = wrapInt (q - it.sold) ∧
    (InInt (q - it.sold) →
      (Item.setQuantity it q).getRemaining = q - it.sold ∧
      ((Item.setQuantity it q).getRemaining < 0 ↔ q < it.sold)) ∧
    (initializeInventory qtys opens h).inventory.length = h.inventory.length ∧
    (initializeInventory qtys opens h).inventory.get? i
      = (h.inventory.get? i).map (fun x =>
          ({ name := x.name, price := x.price, quantity := qtys i, sold := x.sold } : Item)) := by
  refine ⟨rfl, rfl, ?_, ?_, ?_⟩
  · intro hfit
    have hrem : (Item.setQuantity it q).getRemaining = q - it.sold :=
      wrapInt_of_inInt _ hfit.1 hfit.2
    refine ⟨hrem, ?_⟩
    rw [hrem]
    omega
  · unfold initializeInventory
    rw [saveData_inventory]
    exact setQuantities_length qtys 0 h.inventory
  · unfold initializeInventory
    rw [saveData_inventory]
    show (setQuantities qtys 0 h.inventory).get? i = _
    rw [setQuantities_get?, Nat.zero_add]
    rfl

/-- Witness of C14 (amended): a Room item with 3 sold restocked to 1, which leaves -2. -/
theorem c14_setQuantity_unguarded_witness :
    InInt (1 - (⟨"Room", 1200, 5, 3⟩ : Item).sold) ∧
    (Item.setQuantity ⟨"Room", 1200, 5, 3⟩ 1).getRemaining
      = 1 - (⟨"Room", 1200, 5, 3⟩ : Item).sold ∧
    ((Item.setQuantity ⟨"Room", 1200, 5, 3⟩ 1).getRemaining < 0
      ↔ (1 : Int) < (⟨"Room", 1200, 5, 3⟩ : Item).sold) :=
  ⟨by decide,
    (c14_setQuantity_unguarded ⟨"Room", 1200, 5, 3⟩ 1 (fun _ => 1) true
      ⟨[⟨"Room", 1200, 5, 3⟩], none, none⟩ 0).2.2.1 (by decide)⟩

end HotelCpp

namespace DbmsCpp

/-- C15 (counterexample): the seeded store after a sale of 3 Burger.  The Burger row holds
47 and the sales rows sum to 3, so quantity minus sold rows is 44; yet an order of 46 is
accepted, and a refused order of 48 reports 47. -/
theorem c15_validates_against_column :
    getQuantity (processOrder ⟨true, true⟩ 3 3 7 freshDatabase).db 3
      - salesQuantity (processOrder ⟨true, true⟩ 3 3 7 freshDatabase).db 3 = 44 ∧
    (processOrder ⟨true, true⟩ 3 46 7
      (processOrder ⟨true, true⟩ 3 3 7 freshDatabase).db).result = true ∧
    (processOrder ⟨true, true⟩ 3 48 7
      (processOrder ⟨true, true⟩ 3 3 7 freshDatabase).db).available = some 47 := by
  decide

/-- C15 (amended): the remaining stock `OrderManager::processOrder` validates against, and
reports on failure, is the item's `quantity` column alone (the column is debited by every
successful order).  The order is refused with that count exactly when the column is below
the ordered quantity, and the rows of `sales` play no part in the outcome. -/
theorem c15_remaining_is_quantity_column (f : Faults) (qty userId : Int) (db : Database)
    (r : InventoryRow) (sales : List SalesRow)
    (hopen : db.snapshot = none) (hkey : (db.tables.inventory.map InventoryRow.id).Nodup)
    (hr : r ∈ db.tables.inventory) :
    (processOrder f r.id qty userId db).available
      = (if r.quantity < qty then some r.quantity else none) ∧
    ((processOrder f r.id qty userId db).result = true ↔
      (qty ≤ r.quantity ∧ f.updateOk = true ∧ f.insertOk = true)) ∧
    (processOrder f r.id qty userId
        { db with tables := { db.tables with sales := sales } }).result
      = (processOrder f r.id qty userId db).result ∧
    (processOrder f r.id qty userId
        { db with tables := { db.tables with sales := sales } }).available
      = (processOrder f r.id qty userId db).available := by
  have hq : getQuantity db r.id = r.quantity := getQuantity_of_mem db r hkey hr
  have hq' : getQuantity { db with tables := { db.tables with sales := sales } } r.id
      = r.quantity := hq
  have hopen' : ({ db with tables := { db.tables with sales := sales } } : Database).snapshot
      = none := hopen
  rw [processOrder_available f r.id qty userId db hopen,
    processOrder_result f r.id qty userId db hopen,
    processOrder_available f r.id qty userId
      { db with tables := { db.tables with sales := sales } } hopen',
    processOrder_result f r.id qty userId
      { db with tables := { db.tables with sales := sales } } hopen', hq, hq']
  refine ⟨rfl, ?_, rfl, rfl⟩
  simp only [Bool.and_eq_true, decide_eq_true_eq]

/-- Witness of C15 (amended): the Burger row holding 47 with one recorded sale of 3. -/
theorem c15_remaining_is_quantity_column_witness :
    (processOrder ⟨true, true⟩ (⟨3, "Burger", 120, 47, "food"⟩ : InventoryRow).id 46 7
        ⟨⟨[⟨3, "Burger", 120, 47, "food"⟩], [⟨3, 3, 360, 7⟩]⟩, none, []⟩).available
      = (if (⟨3, "Burger", 120, 47, "food"⟩ : InventoryRow).quantity < 46
          then some (⟨3, "Burger", 120, 47, "food"⟩ : InventoryRow).quantity else none) ∧
    ((processOrder ⟨true, true⟩ (⟨3, "Burger", 120, 47, "food"⟩ : InventoryRow).id 46 7
        ⟨⟨[⟨3, "Burger", 120, 47, "food"⟩], [⟨3, 3, 360, 7⟩]⟩, none, []⟩).result = true ↔
      ((46 : Int) ≤ (⟨3, "Burger", 120, 47, "food"⟩ : InventoryRow).quantity ∧
        (⟨true, true⟩ : Faults).updateOk = true ∧ (⟨true, true⟩ : Faults).insertOk = true)) ∧
    (processOrder ⟨true, true⟩ (⟨3, "Burger", 120, 47, "food"⟩ : InventoryRow).id 46 7
        { (⟨⟨[⟨3, "Burger", 120, 47, "food"⟩], [⟨3, 3, 360, 7⟩]⟩, none, []⟩ : Database) with
          tables :=
            { (⟨⟨[⟨3, "Burger", 120, 47, "food"⟩], [⟨3, 3, 360, 7⟩]⟩, none, []⟩
                : Database).tables with sales := [] } }).result
      = (processOrder ⟨true, true⟩ (⟨3, "Burger", 120, 47, "food"⟩ : InventoryRow).id 46 7
          ⟨⟨[⟨3, "Burger", 120, 47, "food"⟩], [⟨3, 3, 360, 7⟩]⟩, none, []⟩).result ∧
    (processOrder ⟨true, true⟩ (⟨3, "Burger", 120, 47, "food"⟩ : InventoryRow).id 46 7
        { (⟨⟨[⟨3, "Burger", 120, 47, "food"⟩], [⟨3, 3, 360, 7⟩]⟩, none, []⟩ : Database) with
          tables :=
            { (⟨⟨[⟨3, "Burger", 120, 47, "food"⟩], [⟨3, 3, 360, 7⟩]⟩, none, []⟩
                : Database).tables with sales := [] } }).available
      = (processOrder ⟨true, true⟩ (⟨3, "Burger", 120, 47, "food"⟩ : InventoryRow).id 46 7
          ⟨⟨[⟨3, "Burger", 120, 47, "food"⟩], [⟨3, 3, 360, 7⟩]⟩, none, []⟩).available :=
  c15_remaining_is_quantity_column ⟨true, true⟩ 46 7
    ⟨⟨[⟨3, "Burger", 120, 47, "food"⟩], [⟨3, 3, 360, 7⟩]⟩, none, []⟩
    ⟨3, "Burger", 120, 47, "food"⟩ [] rfl (by decide) (by decide)

end DbmsCpp

namespace HotelCpp

/-- C17 (counterexample): one Room item at price 1200 with 2000000 stocked and 2000000
sold.  The exact revenue is 2400000000; the collection and the total that
`displaySalesInfo` prints are both -1894967296. -/
theorem c17_total_wraps :
    ((⟨[⟨"Room", 1200, 2000000, 2000000⟩], none, none⟩ : Hotel).inventory.map
      (fun it => it.sold * it.price)).sum = 2400000000 ∧
    (displaySalesInfo ⟨[⟨"Room", 1200, 2000000, 2000000⟩], none, none⟩).2.1
      = [{ name := "Room", had := 2000000, sold := 2000000, remaining := 0,
           collection := -1894967296 }] ∧
    (displaySalesInfo ⟨[⟨"Room", 1200, 2000000, 2000000⟩], none, none⟩).2.2
      = -1894967296 := by
  decide

/-- C17 (amended): `Hotel::displaySalesInfo` leaves the hotel unchanged, so calling it again
reports the same figures.  It prints for each item, in order, its quantity, sold,
remaining and collection, where remaining is `quantity - sold` and collection is
`sold * price` as 32-bit `int` results, and the total it prints is the sum of
`sold * price` over all items as a 32-bit `int` result: the exact sum whenever that fits
in an `int`. -/
theorem c17_displaySalesInfo_report (h : Hotel) :
    (displaySalesInfo h).1 = h ∧
    (displaySalesInfo h).2.1 = h.inventory.map (fun it =>
      ({ name := it.name, had := it.quantity, sold := it.sold,
         remaining := wrapInt (it.quantity - it.sold),
         collection := wrapInt (it.sold * it.price) } : SalesLine)) ∧
    (displaySalesInfo h).2.2
      = wrapInt (h.inventory.map (fun it => it.sold * it.price)).sum ∧
    (InInt (h.inventory.map (fun it => it.sold * it.price)).sum →
      (displaySalesInfo h).2.2 = (h.inventory.map (fun it => it.sold * it.price)).sum) ∧
    displaySalesInfo (displaySalesInfo h).1 = displaySalesInfo h := by
  have hloop := displayLoop_spec h.inventory ([], 0) (by decide)
  have htotal : (displaySalesInfo h).2.2
      = wrapInt (h.inventory.map (fun it => it.sold * it.price)).sum := by
    unfold displaySalesInfo
    simp only []
    rw [hloop]
    simp
  refine ⟨rfl, ?_, htotal, ?_, rfl⟩
  · unfold displaySalesInfo
    simp only []
    rw [hloop]
    simp
  · intro hfit
    rw [htotal]
    exact wrapInt_of_inInt _ hfit.1 hfit.2

/-- Witness of C17 (amended): a Room item with 2 sold at 1200 and a Burger item with 7 sold
at 120; the sum 3240 fits in an `int` and is the total printed. -/
theorem c17_displaySalesInfo_report_witness :
    InInt ((⟨[⟨"Room", 1200, 5, 2⟩, ⟨"Burger", 120, 50, 7⟩], none, none⟩ : Hotel).inventory.map
      (fun it => it.sold * it.price)).sum ∧
    (displaySalesInfo ⟨[⟨"Room", 1200, 5, 2⟩, ⟨"Burger", 120, 50, 7⟩], none, none⟩).2.2
      = ((⟨[⟨"Room", 1200, 5, 2⟩, ⟨"Burger", 120, 50, 7⟩], none, none⟩ : Hotel).inventory.map
          (fun it => it.sold * it.price)).sum :=
  ⟨by decide,
    (c17_displaySalesInfo_report
      ⟨[⟨"Room", 1200, 5, 2⟩, ⟨"Burger", 120, 50, 7⟩], none, none⟩).2.2.2.1 (by decide)⟩

end HotelCpp

namespace DbmsCpp

/-- C19 (counterexample): on the seeded store `processOrder(3, -2147483648, 7)` is
accepted.  The Burger quantity was 50 with no sales; afterwards the column holds
-2147483598, a negative number, and column plus sales sum is -4294967246, not 50. -/
theorem c19_conservation_breaks_on_overflow :
    getQuantity freshDatabase 3 + salesQuantity freshDatabase 3 = 50 ∧
    (processOrder ⟨true, true⟩ 3 (-2147483648) 7 freshDatabase).result = true ∧
    getQuantity (processOrder ⟨true, true⟩ 3 (-2147483648) 7 freshDatabase).db 3
      = -2147483598 ∧
    getQuantity (processOrder ⟨true, true⟩ 3 (-2147483648) 7 freshDatabase).db 3
        + salesQuantity (processOrder ⟨true, true⟩ 3 (-2147483648) 7 freshDatabase).db 3
      = -4294967246 := by
  decide

/-- C19 (amended): stock conservation when the debit fits in an `int`.  From a connection
with no open transaction and a table with unique ids, if the stored quantity of `itemId`
minus `quantity` does not exceed `INT_MAX`, then after the call of `processOrder` (any
outcome) the inventory has the same ids, and for every row `r` of the inventory the
quantity stored for `r.id` plus the sum of the sales rows of `r.id` is what it was before;
the stored quantity is not negative if it was not negative before. -/
theorem c19_stock_conservation (f : Faults) (itemId quantity userId : Int) (db : Database)
    (r : InventoryRow)
    (hopen : db.snapshot = none) (hkey : (db.tables.inventory.map InventoryRow.id).Nodup)
    (hr : r ∈ db.tables.inventory)
    (hfit : getQuantity db itemId - quantity ≤ HotelCpp.INT_MAX) :
    (processOrder f itemId quantity userId db).db.tables.inventory.map InventoryRow.id
      = db.tables.inventory.map InventoryRow.id ∧
    getQuantity (processOrder f itemId quantity userId db).db r.id
        + salesQuantity (processOrder f itemId quantity userId db).db r.id
      = r.quantity + salesQuantity db r.id ∧
    (0 ≤ r.quantity → 0 ≤ getQuantity (processOrder f itemId quantity userId db).db r.id) := by
  have hq : getQuantity db r.id = r.quantity := getQuantity_of_mem db r hkey hr
  rw [processOrder_cases f itemId quantity userId db hopen]
  by_cases hlt : getQuantity db itemId < quantity
  · rw [if_pos hlt]
    exact ⟨rfl, by rw [hq], fun h => by rw [hq]; exact h⟩
  · rw [if_neg hlt]
    by_cases hf : (f.updateOk && f.insertOk) = true
    · have hw : HotelCpp.wrapInt (getQuantity db itemId - quantity)
          = getQuantity db itemId - quantity := by
        apply HotelCpp.wrapInt_of_inInt _ _ hfit
        unfold HotelCpp.INT_MIN
        omega
      rw [if_pos hf, hw, setQuantityRows_eq_debitSpec db itemId quantity hkey]
      simp only []
      have hids := debitSpec_ids db.tables.inventory itemId quantity
      have hkey' : ((debitSpec db.tables.inventory itemId quantity).map InventoryRow.id).Nodup := by
        rw [hids]; exact hkey
      have hmem : (if r.id = itemId then { r with quantity := r.quantity - quantity } else r)
          ∈ debitSpec db.tables.inventory itemId quantity :=
        List.mem_map_of_mem _ hr
      have hid : (if r.id = itemId then { r with quantity := r.quantity - quantity } else r).id
          = r.id := by
        by_cases h : r.id = itemId
        · rw [if_pos h]
        · rw [if_neg h]
      have hnew := foldl_pick_of_mem InventoryRow.quantity
        (debitSpec db.tables.inventory itemId quantity) _ 0 hkey' hmem
      rw [hid] at hnew
      have hget : ∀ (sales : List SalesRow) (issued : List Query),
          getQuantity ⟨⟨debitSpec db.tables.inventory itemId quantity, sales⟩, none, issued⟩ r.id
            = (if r.id = itemId then { r with quantity := r.quantity - quantity } else r).quantity :=
        fun _ _ => hnew
      rw [hget, salesQuantity_append]
      refine ⟨hids, ?_, ?_⟩
      · by_cases h : r.id = itemId
        · rw [if_pos h, if_pos h.symm]
          show r.quantity - quantity + (salesQuantity db r.id + quantity) = _
          omega
        · have h' : ¬ itemId = r.id := fun e => h e.symm
          rw [if_neg h, if_neg h']
          omega
      · intro h0
        by_cases h : r.id = itemId
        · rw [if_pos h]
          show 0 ≤ r.quantity - quantity
          rw [← h, hq] at hlt
          omega
        · rw [if_neg h]; exact h0
    · rw [if_neg hf]
      exact ⟨rfl, by rw [← hq]; rfl, fun h => by rw [← hq] at h; exact h⟩

/-- Witness of C19: 3 x Burger on the seeded store, seen from the Burger row. -/
theorem c19_stock_conservation_witness :
    (processOrder ⟨true, true⟩ 3 3 7 freshDatabase).db.tables.inventory.map InventoryRow.id
      = freshDatabase.tables.inventory.map InventoryRow.id ∧
    getQuantity (processOrder ⟨true, true⟩ 3 3 7 freshDatabase).db
          (⟨3, "Burger", 120, 50, "food"⟩ : InventoryRow).id
        + salesQuantity (processOrder ⟨true, true⟩ 3 3 7 freshDatabase).db
          (⟨3, "Burger", 120, 50, "food"⟩ : InventoryRow).id
      = (⟨3, "Burger", 120, 50, "food"⟩ : InventoryRow).quantity
        + salesQuantity freshDatabase (⟨3, "Burger", 120, 50, "food"⟩ : InventoryRow).id ∧
    (0 ≤ (⟨3, "Burger", 120, 50, "food"⟩ : InventoryRow).quantity →
      0 ≤ getQuantity (processOrder ⟨true, true⟩ 3 3 7 freshDatabase).db
        (⟨3, "Burger", 120, 50, "food"⟩ : InventoryRow).id) :=
  c19_stock_conservation ⟨true, true⟩ 3 3 7 freshDatabase ⟨3, "Burger", 120, 50, "food"⟩
    rfl (by decide) (by decide) (by decide)

/-- C20: `sqlEscape` ends on every input (`input.length + 1` iterations of its loop, or any
number above the count of quotes, suffice) and returns the input with each single quote
doubled and every other character kept in place.  The output length is the input length
plus the number of quotes; replacing each pair of quotes by one quote gives the input back;
every maximal run of quotes in the output has even length. -/
theorem c20_sqlEscape_doubles_quotes (input : List Char) :
    sqlEscape input = some (escapeSpec input) ∧
    (∀ fuel, input.count quote < fuel → sqlEscapeLoop fuel input 0 = some (escapeSpec input)) ∧
    (escapeSpec input).length = input.length + input.count quote ∧
    unescapeSpec (escapeSpec input) = input ∧
    (∀ (pre post : List Char) (n : Nat),
      escapeSpec input = pre ++ (List.replicate n quote ++ post) →
      pre.getLast? ≠ some quote → post.head? ≠ some quote → Even n) := by
  have hloop : ∀ fuel, input.count quote < fuel →
      sqlEscapeLoop fuel input 0 = some (escapeSpec input) := by
    intro fuel hfuel
    have h := sqlEscapeLoop_spec fuel [] input hfuel
    simpa using h
  refine ⟨?_, hloop, escapeSpec_length input, unescapeSpec_escapeSpec input, ?_⟩
  · unfold sqlEscape
    exact hloop _ (Nat.lt_succ_of_le (List.count_le_length quote input))
  · intro pre post n h hpre hpost
    exact escapeSpec_even_runs input pre post n h hpre hpost

end DbmsCpp
